import Mathlib

/-!
# A verification development for the `ToDoList` class of `script.js`

The file embeds the ledger of `src/script.js` (the class `ToDoList`) in Lean and proves
properties of its operations.

Modelling conventions.

* An ECMAScript Number is a `JSNum`: `NaN`, the two infinities, or a finite value, which is a
  rational.  The arithmetic is that of IEEE-754 binary64: the exact result of `+`, `-`, `*`, `/`
  and of reading a numeric literal is rounded to the nearest double, ties to even, with
  subnormals, underflow to zero and overflow to an infinity (`JSNum.round64`).  The sign of zero
  is not modelled (both zeros are falsy and compare equal, which is all the ledger observes).
* A task object `{taskNumber, task, priority, time, category}` is a `TaskRecord`.  The strings
  `'High'`, `'Normal'`, `'Low'` produced by `getPriority` are the constructors of `Priority`.
* `this.tasks` is a `List TaskRecord`; a method that mutates the ledger returns the new ledger,
  a method that returns a value and leaves the ledger alone returns the value together with the
  ledger.
* The DOM side of `renderTasks` is outside the model: `allocateTimeForTasks` is modelled by the
  list it hands to `renderTasks`.
-/

namespace ToDo

/-! ## ECMAScript numbers -/

/-- An ECMAScript Number; a finite double is the rational it denotes. -/
inductive JSNum where
  | nan : JSNum
  | negInf : JSNum
  | fin (q : ℚ) : JSNum
  | posInf : JSNum
  deriving DecidableEq

namespace JSNum

instance : Inhabited JSNum := ⟨fin 0⟩

instance (n : Nat) : OfNat JSNum n := ⟨fin n⟩

/-- The power `2 ^ e` for an integer `e`. -/
def pow2 (e : Int) : ℚ :=
  if 0 ≤ e then ((2 ^ e.toNat : Nat) : ℚ) else 1 / ((2 ^ (-e).toNat : Nat) : ℚ)

/-- The integer nearest to `n / d`, and the even one of the two when both are as near. -/
def roundHalfEven (n d : Nat) : Nat :=
  if 2 * (n % d) < d then n / d
  else if d < 2 * (n % d) then n / d + 1
  else if (n / d) % 2 = 0 then n / d else n / d + 1

/-- The number of halvings that bring `n` below 2, at most `fuel` of them. -/
def log2Fuel : Nat → Nat → Nat
  | 0, _ => 0
  | fuel + 1, n => if n < 2 then 0 else log2Fuel fuel (n / 2) + 1

/-- The exponent of the largest power of 2 that is `<= n`, for `n > 0`. -/
def floorLog2 (n : Nat) : Nat := log2Fuel n n

/-- The exponent of the largest power of 2 that is `<= a`, for a rational `a > 0`. -/
def binaryExponent (a : ℚ) : Int :=
  let e0 : Int := (floorLog2 a.num.toNat : Int) - (floorLog2 a.den : Int)
  if pow2 e0 ≤ a then e0 else e0 - 1

/-- The multiple of the spacing of the doubles around `a > 0` that is nearest to `a`, ties to
even: 53 significant bits, and from `2 ^ (-1022)` down the spacing `2 ^ (-1074)` of the
subnormals. -/
def roundMagnitude (a : ℚ) : ℚ :=
  let quantum := pow2 (max (binaryExponent a) (-1022) - 52)
  (roundHalfEven (a / quantum).num.toNat (a / quantum).den : ℚ) * quantum

/-- The Number value for a rational: the nearest double, ties to even, and an infinity when
that rounding reaches `2 ^ 1024`. -/
def round64 (q : ℚ) : JSNum :=
  if q = 0 then fin 0
  else if 0 < q then
    if pow2 1024 ≤ roundMagnitude q then posInf else fin (roundMagnitude q)
  else
    if pow2 1024 ≤ roundMagnitude (-q) then negInf else fin (-roundMagnitude (-q))

/-- Unary minus. -/
def neg : JSNum → JSNum
  | nan => nan
  | negInf => posInf
  | fin q => fin (-q)
  | posInf => negInf

/-- The `+` of two Numbers. -/
def add : JSNum → JSNum → JSNum
  | nan, _ => nan
  | _, nan => nan
  | posInf, negInf => nan
  | negInf, posInf => nan
  | posInf, _ => posInf
  | _, posInf => posInf
  | negInf, _ => negInf
  | _, negInf => negInf
  | fin a, fin b => round64 (a + b)

/-- The `-` of two Numbers. -/
def sub (a b : JSNum) : JSNum := add a (neg b)

/-- An infinity of the sign of `s * t`, for `s` and `t` non-zero. -/
def infOfSign (s t : ℚ) : JSNum := if 0 < s * t then posInf else negInf

/-- The `*` of two Numbers. -/
def mul : JSNum → JSNum → JSNum
  | nan, _ => nan
  | _, nan => nan
  | fin a, fin b => round64 (a * b)
  | fin a, posInf => if a = 0 then nan else infOfSign a 1
  | fin a, negInf => if a = 0 then nan else infOfSign a (-1)
  | posInf, fin b => if b = 0 then nan else infOfSign 1 b
  | negInf, fin b => if b = 0 then nan else infOfSign (-1) b
  | posInf, posInf => posInf
  | negInf, negInf => posInf
  | posInf, negInf => negInf
  | negInf, posInf => negInf

/-- The `/` of two Numbers (a zero divisor is taken to be `+0`). -/
def div : JSNum → JSNum → JSNum
  | nan, _ => nan
  | _, nan => nan
  | fin a, fin b =>
    if b = 0 then (if a = 0 then nan else infOfSign a 1) else round64 (a / b)
  | fin _, posInf => fin 0
  | fin _, negInf => fin 0
  | posInf, fin b => if b < 0 then negInf else posInf
  | negInf, fin b => if b < 0 then posInf else negInf
  | posInf, posInf => nan
  | negInf, negInf => nan
  | posInf, negInf => nan
  | negInf, posInf => nan

instance : Add JSNum := ⟨add⟩
instance : Sub JSNum := ⟨sub⟩
instance : Mul JSNum := ⟨mul⟩
instance : Div JSNum := ⟨div⟩

/-- The comparison `a <= b`; every comparison with `NaN` is false. -/
def le : JSNum → JSNum → Bool
  | nan, _ => false
  | _, nan => false
  | negInf, _ => true
  | _, posInf => true
  | fin a, fin b => decide (a ≤ b)
  | fin _, negInf => false
  | posInf, _ => false

/-- The comparison `a >= b`, which is `b <= a`. -/
def ge (a b : JSNum) : Bool := le b a

/-- The comparison `a < b`; every comparison with `NaN` is false. -/
def lt : JSNum → JSNum → Bool
  | nan, _ => false
  | _, nan => false
  | posInf, _ => false
  | _, negInf => false
  | negInf, _ => true
  | _, posInf => true
  | fin a, fin b => decide (a < b)

/-- The comparison `a > b`, which is `b < a`. -/
def gt (a b : JSNum) : Bool := lt b a

/-- ToBoolean of a Number: `NaN` and zero are falsy. -/
def truthy : JSNum → Bool
  | nan => false
  | fin q => decide (q ≠ 0)
  | _ => true

end JSNum

/-- The expression `x || 0` where `x` is a Number or `undefined` (`none`). -/
def orZero : Option JSNum → JSNum
  | none => 0
  | some x => if x.truthy then x else 0

/-! ## Tasks and the ledger -/

/-- The three strings `getPriority` returns. -/
inductive Priority where
  | High : Priority
  | Normal : Priority
  | Low : Priority
  deriving DecidableEq

/-- The object literal `{'High': 1, 'Normal': 2, 'Low': 3}` of `sortTasks`. -/
def priorityOrder : Priority → Int
  | .High => 1
  | .Normal => 2
  | .Low => 3

/-- A task object of the ledger. -/
structure TaskRecord where
  taskNumber : Nat
  task : String
  priority : Priority
  time : JSNum
  category : String
  deriving DecidableEq

/-- The fields of the class `ToDoList`. -/
structure ToDoList where
  tasks : List TaskRecord
  pastTaskDurations : List (String × JSNum)
  deriving DecidableEq

/-- The body of the constructor. -/
def ToDoList.new : ToDoList := { tasks := [], pastTaskDurations := [] }

/-! ## `Number(string)`

The conversion StringToNumber of ECMAScript: white space is stripped from both ends, the empty
string is `0`, a `StrNumericLiteral` has its mathematical value rounded to a double, anything
else is `NaN`. -/

/-- The code points of WhiteSpace and LineTerminator. -/
def isStrWhiteSpaceChar (c : Char) : Bool :=
  decide (c.toNat ∈ [0x9, 0xA, 0xB, 0xC, 0xD, 0x20, 0xA0, 0x1680, 0x2028, 0x2029, 0x202F, 0x205F,
    0x3000, 0xFEFF]) || (decide (0x2000 ≤ c.toNat) && decide (c.toNat ≤ 0x200A))

/-- Strip white space from both ends. -/
def trim (cs : List Char) : List Char :=
  ((cs.dropWhile isStrWhiteSpaceChar).reverse.dropWhile isStrWhiteSpaceChar).reverse

/-- The value of a digit in the given base (letters are digits from ten on). -/
def digitVal (base : Nat) (c : Char) : Option Nat :=
  let v : Option Nat :=
    if '0' ≤ c ∧ c ≤ '9' then some (c.toNat - 48)
    else if 'a' ≤ c ∧ c ≤ 'z' then some (c.toNat - 87)
    else if 'A' ≤ c ∧ c ≤ 'Z' then some (c.toNat - 55)
    else none
  v.filter (fun d => decide (d < base))

/-- The value of a run of digits, continuing from `acc`; `none` on a non-digit. -/
def digitsValue (base : Nat) : List Char → Nat → Option Nat
  | [], acc => some acc
  | c :: cs, acc =>
    match digitVal base c with
    | some d => digitsValue base cs (acc * base + d)
    | none => none

/-- The value of a non-empty run of digits. -/
def parseDigits (base : Nat) (cs : List Char) : Option Nat :=
  if cs = [] then none else digitsValue base cs 0

/-- The integer of an ExponentPart, after its `e`: an optional sign and digits. -/
def parseExponent : List Char → Option Int
  | '+' :: ds => (parseDigits 10 ds).map Int.ofNat
  | '-' :: ds => (parseDigits 10 ds).map (fun n => -(Int.ofNat n))
  | ds => (parseDigits 10 ds).map Int.ofNat

/-- The value of `digits`, `digits.`, `digits.digits` or `.digits`. -/
def parseMantissa (cs : List Char) : Option ℚ :=
  let intPart := cs.takeWhile (fun c => c != '.')
  match cs.dropWhile (fun c => c != '.') with
  | [] => (parseDigits 10 intPart).map (fun n => (n : ℚ))
  | _ :: fracPart =>
    if intPart = [] ∧ fracPart = [] then none
    else
      match digitsValue 10 intPart 0, digitsValue 10 fracPart 0 with
      | some i, some f => some ((i : ℚ) + (f : ℚ) / 10 ^ fracPart.length)
      | _, _ => none

/-- The value of a StrUnsignedDecimalLiteral. -/
def parseUnsignedDecimal (cs : List Char) : Option JSNum :=
  if cs = ['I', 'n', 'f', 'i', 'n', 'i', 't', 'y'] then some JSNum.posInf
  else
    let mant := cs.takeWhile (fun c => c != 'e' && c != 'E')
    match cs.dropWhile (fun c => c != 'e' && c != 'E') with
    | [] => (parseMantissa mant).map JSNum.round64
    | _ :: ex =>
      match parseMantissa mant, parseExponent ex with
      | some m, some e => some (JSNum.round64 (m * (10 : ℚ) ^ e))
      | _, _ => none

/-- The value of a StrDecimalLiteral: an optional sign and an unsigned literal. -/
def parseDecimal : List Char → Option JSNum
  | '+' :: cs => parseUnsignedDecimal cs
  | '-' :: cs => (parseUnsignedDecimal cs).map JSNum.neg
  | cs => parseUnsignedDecimal cs

/-- The value of a NonDecimalIntegerLiteral: `0x`, `0o` or `0b` and digits. -/
def parseNonDecimal : List Char → Option JSNum
  | '0' :: c :: ds =>
    if c = 'x' ∨ c = 'X' then (parseDigits 16 ds).map (fun n => JSNum.round64 n)
    else if c = 'o' ∨ c = 'O' then (parseDigits 8 ds).map (fun n => JSNum.round64 n)
    else if c = 'b' ∨ c = 'B' then (parseDigits 2 ds).map (fun n => JSNum.round64 n)
    else none
  | _ => none

/-- The function `Number` applied to a string. -/
def toNumber (s : String) : JSNum :=
  let cs := trim s.toList
  if cs = [] then 0
  else
    match parseNonDecimal cs with
    | some n => n
    | none => (parseDecimal cs).getD JSNum.nan

/-! ## Strings -/

/-- The pieces of a string between occurrences of the separator. -/
def splitChars (sep : Char) : List Char → List (List Char)
  | [] => [[]]
  | c :: cs =>
    if c = sep then [] :: splitChars sep cs
    else
      match splitChars sep cs with
      | [] => [[c]]
      | w :: ws => (c :: w) :: ws

/-- The method `split` with a one-character separator. -/
def split (s : String) (sep : Char) : List String :=
  (splitChars sep s.toList).map String.mk

/-- The method `toLowerCase`.  Only the letters `A`..`Z` are mapped: no other character
lower-cases to a letter sequence that completes one of the keywords of `getPriority`. -/
def toLowerCase (s : String) : String := String.mk (s.toList.map Char.toLower)

/-- Whether `kw` occurs in `cs` as a contiguous run. -/
def includesChars : List Char → List Char → Bool
  | [], kw => kw.isEmpty
  | c :: cs, kw => kw.isPrefixOf (c :: cs) || includesChars cs kw

/-- The method `includes`. -/
def includes (s keyword : String) : Bool := includesChars s.toList keyword.toList

/-! ## The methods of `ToDoList` -/

/-- The constant `lowPriorityKeywords` of `getPriority`. -/
def lowPriorityKeywords : List String := ["low", "later", "someday"]

/-- The constant `highPriorityKeywords` of `getPriority`. -/
def highPriorityKeywords : List String := ["urgent", "important", "asap"]

/-- The method `getPriority`. -/
def getPriority (task : String) : Priority :=
  if highPriorityKeywords.any (fun keyword => includes (toLowerCase task) keyword) then
    Priority.High
  else if lowPriorityKeywords.any (fun keyword => includes (toLowerCase task) keyword) then
    Priority.Low
  else
    Priority.Normal

/-- The method `convertToMinutes`. -/
def convertToMinutes (timeString : String) : JSNum :=
  let parts := (split timeString ':').map toNumber
  let hours := parts[0]?
  let minutes := parts[1]?
  let seconds := parts[2]?
  orZero hours * 60 + orZero minutes + orZero seconds / 60

/-- The method `addTask`. -/
def addTask (self : ToDoList) (task timeToComplete category : String) : ToDoList :=
  let timeInMinutes := convertToMinutes timeToComplete
  let taskNumber := self.tasks.length + 1
  { self with
    tasks := self.tasks ++ [{
      taskNumber := taskNumber
      task := task
      priority := getPriority task
      time := timeInMinutes
      category := category }] }

/-- What `updateTask` leaves behind.  With `index` a position of the array the spread copies
the task object there and the ledger is again a list of task objects.  With any other `index`
the spread of `undefined` is empty: no exception is thrown, the array is as before at every old
position, and its property `index` now holds the object `{task, time}` alone. -/
inductive UpdateResult where
  | inRange (self : ToDoList) : UpdateResult
  | outOfRange (self : ToDoList) (index : Int) (task : String) (time : JSNum) : UpdateResult
  deriving DecidableEq

/-- The method `updateTask`. -/
def updateTask (self : ToDoList) (index : Int) (task timeToComplete : String) : UpdateResult :=
  let timeInMinutes := convertToMinutes timeToComplete
  if index < 0 then UpdateResult.outOfRange self index task timeInMinutes
  else
    match self.tasks[index.toNat]? with
    | some old =>
      UpdateResult.inRange
        { self with tasks := self.tasks.set index.toNat { old with task := task, time := timeInMinutes } }
    | none => UpdateResult.outOfRange self index task timeInMinutes

/-- The duration stored by `updateTask` in the object it writes. -/
def UpdateResult.storedTime (index : Int) : UpdateResult → Option JSNum
  | .inRange self => (self.tasks[index.toNat]?).map TaskRecord.time
  | .outOfRange _ _ _ time => some time

/-- The method `splice(start, deleteCount)`: the array after the deletion. -/
def splice {α : Type} (l : List α) (start deleteCount : Int) : List α :=
  let len : Int := l.length
  let actualStart : Int := if start < 0 then max (len + start) 0 else min start len
  let actualDeleteCount : Int := min (max deleteCount 0) (len - actualStart)
  l.take actualStart.toNat ++ l.drop (actualStart + actualDeleteCount).toNat

/-- The method `reassignTaskNumbers`. -/
def reassignTaskNumbers (self : ToDoList) : ToDoList :=
  { self with
    tasks := self.tasks.enum.map (fun (index, task) => { task with taskNumber := index + 1 }) }

/-- The method `removeTask`. -/
def removeTask (self : ToDoList) (index : Int) : ToDoList :=
  reassignTaskNumbers { self with tasks := splice self.tasks index 1 }

/-- The method `listTasks`. -/
def listTasks (self : ToDoList) : List TaskRecord := self.tasks

/-! ## `Array.prototype.sort`

The ECMAScript sort is stable and, for a consistent comparator, yields the sorted order.  It is
modelled by a stable insertion sort driven by the comparator's sign. -/

/-- Insert `a` into a sorted list, in front of the first element it does not come after. -/
def sortInsert {α : Type} (cmp : α → α → Int) (a : α) : List α → List α
  | [] => [a]
  | b :: l => if cmp a b ≤ 0 then a :: b :: l else b :: sortInsert cmp a l

/-- The method `sort(cmp)` on a list. -/
def sort {α : Type} (cmp : α → α → Int) : List α → List α
  | [] => []
  | a :: l => sortInsert cmp a (sort cmp l)

/-- The method `slice()`: a shallow copy. -/
def slice {α : Type} (l : List α) : List α := l

/-- The comparator of `sortTasks`. -/
def comparePriority (a b : TaskRecord) : Int :=
  priorityOrder a.priority - priorityOrder b.priority

/-- The method `sortTasks`: the sorted copy, and the ledger. -/
def sortTasks (self : ToDoList) : List TaskRecord × ToDoList :=
  (sort comparePriority (slice self.tasks), self)

/-! ## Budget allocation -/

/-- The `for` loop of `allocateTimeForTasks`, with `break` on the first miss. -/
def allocateLoop : List TaskRecord → JSNum → List TaskRecord → List TaskRecord
  | [], _, allocatedTasks => allocatedTasks
  | task :: rest, remainingTime, allocatedTasks =>
    if JSNum.ge remainingTime task.time then
      allocateLoop rest (remainingTime - task.time) (allocatedTasks ++ [task])
    else
      allocatedTasks

/-- The method `allocateTimeForTasks`: the list passed to `renderTasks`. -/
def allocateTimeForTasks (self : ToDoList) (totalAvailableTime : JSNum) : List TaskRecord :=
  let sortedTasks := (sortTasks self).1
  allocateLoop sortedTasks totalAvailableTime []

/-- The `for` loop of `suggestTaskOrder`, which skips a miss and goes on. -/
def suggestLoop : List TaskRecord → JSNum → JSNum → List TaskRecord → List TaskRecord
  | [], _, _, taskOrder => taskOrder
  | task :: rest, totalAvailableTime, totalTime, taskOrder =>
    if JSNum.le (totalTime + task.time) totalAvailableTime then
      suggestLoop rest totalAvailableTime (totalTime + task.time) (taskOrder ++ [task])
    else
      suggestLoop rest totalAvailableTime totalTime taskOrder

/-- The method `suggestTaskOrder`. -/
def suggestTaskOrder (self : ToDoList) (totalAvailableTime : JSNum) : List TaskRecord :=
  let sortedTasks := (sortTasks self).1
  suggestLoop sortedTasks totalAvailableTime 0 []

/-! ## Definitions used to state the properties -/

/-- The summed `time` of a list of tasks, added up from the left. -/
def totalDuration (l : List TaskRecord) : JSNum :=
  l.foldl (fun s t => s + t.time) 0

/-- The budget minus the durations of the given tasks, each subtracted in turn from what the ones
before it left. -/
def remainingAfter (budget : JSNum) (before : List TaskRecord) : JSNum :=
  before.foldl (fun remaining t => remaining - t.time) budget

/-- Whether the task at position `i` of `sorted` has a `time` that is `<=` the budget minus the
durations of the tasks before it. -/
def fitsAt (budget : JSNum) (sorted : List TaskRecord) (i : Nat) : Bool :=
  match sorted[i]? with
  | some t => JSNum.le t.time (remainingAfter budget (sorted.take i))
  | none => false

/-- A ledger of three tasks entered in priority order, with durations 10, 25 and 5 minutes. -/
def exampleLedger : ToDoList :=
  addTask (addTask (addTask ToDoList.new "file taxes asap" "0:10" "home")
    "water the plants" "0:25:00" "home") "read the paper later" "0:5" "leisure"

/-- The scan the specification describes for `suggestTaskOrder`: go through the tasks in order
and include a task exactly when the total duration of the tasks already included plus its own
`time` is `<=` the budget; a task that does not fit is skipped and the scan goes on. -/
def scanIncluding (budget : JSNum) : List TaskRecord → List TaskRecord → List TaskRecord
  | [], included => included
  | t :: rest, included =>
    if JSNum.le (totalDuration included + t.time) budget = true then
      scanIncluding budget rest (included ++ [t])
    else
      scanIncluding budget rest included

/-- The lower-cased description contains one of the keywords as a substring. -/
def containsKeyword (keywords : List String) (description : String) : Prop :=
  ∃ keyword, keyword ∈ keywords ∧ keyword.toList <:+: (toLowerCase description).toList

/-- The numeric value of the `i`-th colon-separated component of a time string, where a
component that is absent, empty or non-numeric counts as 0. -/
def componentValue (timeString : String) (i : Nat) : JSNum :=
  match (split timeString ':')[i]? with
  | none => 0
  | some c => if c = "" then 0 else if toNumber c = JSNum.nan then 0 else toNumber c

/-- Each of the first three colon-separated components of a time string has a Number value
that is not negative (`NaN`, the value of a non-numeric component, is not negative). -/
def componentsNotNegative (timeString : String) : Bool :=
  ((split timeString ':').take 3).all (fun c => !(JSNum.gt 0 (toNumber c)))

/-- A task without its `taskNumber`: description, priority, duration and category. -/
def TaskRecord.content (t : TaskRecord) : String × Priority × JSNum × String :=
  (t.task, t.priority, t.time, t.category)

/-! ## Sequences of calls -/

/-- A call of one of the three methods that change the ledger. -/
inductive Call where
  | addTask (task timeToComplete category : String) : Call
  | updateTask (index : Int) (task timeToComplete : String) : Call
  | removeTask (index : Int) : Call

/-- The ledger after a call; `none` for an `updateTask` whose index is not in `[0, count)`. -/
def Call.apply (self : ToDoList) : Call → Option ToDoList
  | .addTask task timeToComplete category =>
    some (ToDo.addTask self task timeToComplete category)
  | .updateTask index task timeToComplete =>
    match ToDo.updateTask self index task timeToComplete with
    | UpdateResult.inRange self' => some self'
    | UpdateResult.outOfRange _ _ _ _ => none
  | .removeTask index => some (ToDo.removeTask self index)

/-- The ledger after a sequence of calls, made one after the other. -/
def runCalls : List Call → ToDoList → Option ToDoList
  | [], self => some self
  | call :: calls, self =>
    match call.apply self with
    | some self' => runCalls calls self'
    | none => none

/-! ## The array after `updateTask` -/

/-- What a property of the array `this.tasks` holds: a task object, or an object that has a
`task` and a `time` and nothing else. -/
inductive ArrayEntry where
  | taskObject (t : TaskRecord) : ArrayEntry
  | partialObject (task : String) (time : JSNum) : ArrayEntry
  deriving DecidableEq

/-- The property `k` of the array of a ledger; `none` when there is no such property. -/
def arrayEntry (self : ToDoList) (k : Int) : Option ArrayEntry :=
  if k < 0 then none else (self.tasks[k.toNat]?).map ArrayEntry.taskObject

/-- The property `k` of the array after `updateTask`. -/
def UpdateResult.entry (k : Int) : UpdateResult → Option ArrayEntry
  | .inRange self => arrayEntry self k
  | .outOfRange self index task time =>
    if k = index then some (ArrayEntry.partialObject task time) else arrayEntry self k

/-- The `length` of the array after `updateTask`: an assignment at an index from `length` on
makes the array one longer than that index. -/
def UpdateResult.length : UpdateResult → Nat
  | .inRange self => self.tasks.length
  | .outOfRange self index _ _ => if 0 ≤ index then index.toNat + 1 else self.tasks.length

/-! ## `predictDuration` -/

/-- What the read of a property of `this.pastTaskDurations` gives: a recorded Number, or the
member of that name which the object literal `{}` inherits from `Object.prototype` (a function,
or the prototype itself for `__proto__`). -/
inductive PropertyValue where
  | number (n : JSNum) : PropertyValue
  | inherited (key : String) : PropertyValue
  deriving DecidableEq

/-- The names of the members of `Object.prototype`. -/
def objectPrototypeKeys : List String :=
  ["constructor", "hasOwnProperty", "isPrototypeOf", "propertyIsEnumerable", "toLocaleString",
    "toString", "valueOf", "__proto__", "__defineGetter__", "__defineSetter__",
    "__lookupGetter__", "__lookupSetter__"]

/-- The read `this.pastTaskDurations[task]`, of an object created as `{}` whose own properties
are the recorded durations; `none` is `undefined`. -/
def getProperty (table : List (String × JSNum)) (key : String) : Option PropertyValue :=
  match table.lookup key with
  | some n => some (PropertyValue.number n)
  | none => if key ∈ objectPrototypeKeys then some (PropertyValue.inherited key) else none

/-- ToBoolean of a property value: functions and objects are truthy. -/
def PropertyValue.truthy : PropertyValue → Bool
  | .number n => n.truthy
  | .inherited _ => true

/-- The method `predictDuration`. -/
def predictDuration (self : ToDoList) (task : String) : PropertyValue :=
  match getProperty self.pastTaskDurations task with
  | some v => if v.truthy then v else PropertyValue.number 30
  | none => PropertyValue.number 30

/-! ## `downloadSchedule`

The conversion of a Number to a string, which prints a double, is a parameter `numberToString`
of the CSV text. -/

/-- The string that is the value of `priority`. -/
def priorityString : Priority → String
  | .High => "High"
  | .Normal => "Normal"
  | .Low => "Low"

/-- The template literal of `downloadSchedule`, one task's line. -/
def csvLine (numberToString : JSNum → String) (task : TaskRecord) : String :=
  toString task.taskNumber ++ "," ++ task.task ++ "," ++ numberToString task.time ++ "," ++
    priorityString task.priority ++ "," ++ task.category

/-- The method `join`. -/
def join (l : List String) (separator : String) : String := separator.intercalate l

/-- The constant `csvContent` of `downloadSchedule`, the content of the CSV blob. -/
def csvContent (numberToString : JSNum → String) (self : ToDoList) : String :=
  let tasks := listTasks self
  "data:text/csv;charset=utf-8," ++ join (tasks.map (csvLine numberToString)) "\n"

/-- A ledger of two tasks of equal priority, with durations `-Infinity` and `Infinity`. -/
def infiniteLedger : ToDoList :=
  addTask (addTask ToDoList.new "wait for the rain" "-Infinity" "garden")
    "watch the paint dry" "Infinity" "home"

/-- A sequence of calls: three tasks are added, the first is removed, the new first is updated
and a task is added. -/
def exampleCalls : List Call :=
  [Call.addTask "file taxes asap" "0:10" "home",
    Call.addTask "water the plants" "0:25:00" "home",
    Call.addTask "read the paper later" "0:5" "leisure",
    Call.removeTask 0,
    Call.updateTask 0 "water the plants and the lawn" "0:40",
    Call.addTask "call the bank" "0:15" "errands"]

/-- A ledger, not empty, whose history table records a duration of 0 for "nap". -/
def napLedger : ToDoList :=
  { tasks := exampleLedger.tasks, pastTaskDurations := [("nap", 0), ("lunch", 45)] }

/-- The ledger that the example sequence of calls leaves. -/
def exampleCallsLedger : ToDoList :=
  { tasks :=
      [{ taskNumber := 1, task := "water the plants and the lawn", priority := Priority.Normal,
         time := 40, category := "home" },
       { taskNumber := 2, task := "read the paper later", priority := Priority.Low,
         time := 5, category := "leisure" },
       { taskNumber := 3, task := "call the bank", priority := Priority.Normal,
         time := 15, category := "errands" }]
    pastTaskDurations := [] }

/-- A whole number from 0 to below `2 ^ 52`: on these the sums and differences of doubles are
exact. -/
def JSNum.isWholeMinutes : JSNum → Bool
  | .fin q => decide (q.den = 1) && decide (0 ≤ q.num) && decide (q.num < 2 ^ 52)
  | _ => false

/-- A ledger of three tasks of equal priority with durations 0.8, 1.6 and 0.6 minutes. -/
def fractionLedger : ToDoList :=
  addTask (addTask (addTask ToDoList.new "stretch" "0:0.8" "health")
    "boil the kettle" "0:1.6" "home") "feed the cat" "0:0.6" "home"

/-- A ledger of three tasks of equal priority that take 1, 1 and 58 seconds. -/
def secondsLedger : ToDoList :=
  addTask (addTask (addTask ToDoList.new "open the window" "0:0:1" "home")
    "close the door" "0:0:1" "home") "feed the cat" "0:0:58" "home"

/-- The function `isFinite` on a Number. -/
def JSNum.isFinite : JSNum → Bool
  | .fin _ => true
  | _ => false

/-! ## JSON

`JSON.stringify(tasks, null, 2)` is modelled on an array of task objects, with the conversion of
a finite Number to a string as the parameter `numberToString`; `JSON.parse` is modelled for
every JSON text.  A string of the model holds code points, so an escaped surrogate that has no
partner, which is half a character, makes the model's `JSON.parse` give up. -/

/-- A value that `JSON.parse` builds. -/
inductive Json where
  | null : Json
  | bool (b : Bool) : Json
  | number (n : JSNum) : Json
  | string (s : String) : Json
  | array (items : List Json) : Json
  | object (members : List (String × Json)) : Json

/-- The double quote. -/
def quoteMark : Char := Char.ofNat 34

/-- The reverse solidus. -/
def backslash : Char := Char.ofNat 92

/-- The left curly bracket. -/
def leftBrace : Char := Char.ofNat 123

/-- The right curly bracket. -/
def rightBrace : Char := Char.ofNat 125

/-- The lower-case hexadecimal digit of a number below 16. -/
def hexDigit (n : Nat) : Char :=
  if n < 10 then Char.ofNat (48 + n) else Char.ofNat (87 + n)

/-- What QuoteJSONString writes for one character. -/
def quoteChar (c : Char) : List Char :=
  if c = quoteMark then [backslash, quoteMark]
  else if c = backslash then [backslash, backslash]
  else if c = Char.ofNat 8 then [backslash, 'b']
  else if c = Char.ofNat 9 then [backslash, 't']
  else if c = Char.ofNat 10 then [backslash, 'n']
  else if c = Char.ofNat 12 then [backslash, 'f']
  else if c = Char.ofNat 13 then [backslash, 'r']
  else if c.toNat < 32 then
    [backslash, 'u', '0', '0', hexDigit (c.toNat / 16), hexDigit (c.toNat % 16)]
  else [c]

/-- The operation QuoteJSONString. -/
def quoteJSONString (s : String) : List Char :=
  quoteMark :: (s.toList.flatMap quoteChar ++ [quoteMark])

/-- The text `JSON.stringify` writes for a Number: `null` unless it is finite. -/
def numberText (numberToString : JSNum → String) (x : JSNum) : List Char :=
  if x.isFinite then (numberToString x).toList else ['n', 'u', 'l', 'l']

/-- A member of an object: the quoted key, a colon, a space and the text of the value. -/
def memberText (key : String) (value : List Char) : List Char :=
  quoteJSONString key ++ (':' :: ' ' :: value)

/-- The text of a task object inside the array, with a gap of two spaces. -/
def taskObjectText (numberToString : JSNum → String) (t : TaskRecord) : List Char :=
  leftBrace :: ('\n' :: ' ' :: ' ' :: ' ' :: ' ' ::
    (List.intercalate [',', '\n', ' ', ' ', ' ', ' ']
      [memberText "taskNumber" (numberText numberToString (JSNum.fin t.taskNumber)),
        memberText "task" (quoteJSONString t.task),
        memberText "priority" (quoteJSONString (priorityString t.priority)),
        memberText "time" (numberText numberToString t.time),
        memberText "category" (quoteJSONString t.category)] ++
      ['\n', ' ', ' ', rightBrace]))

/-- The text of `JSON.stringify(tasks, null, 2)` for an array of task objects. -/
def stringifyTasks (numberToString : JSNum → String) (tasks : List TaskRecord) : List Char :=
  if tasks = [] then ['[', ']']
  else
    '[' :: ('\n' :: ' ' :: ' ' ::
      (List.intercalate [',', '\n', ' ', ' '] (tasks.map (taskObjectText numberToString)) ++
        ['\n', ']']))

/-- The constant `jsonContent` of `downloadSchedule`. -/
def jsonContent (numberToString : JSNum → String) (self : ToDoList) : String :=
  let tasks := listTasks self
  String.mk (stringifyTasks numberToString tasks)

/-- The white space of JSON. -/
def isJsonWhitespace (c : Char) : Bool :=
  c = ' ' || c = Char.ofNat 9 || c = Char.ofNat 10 || c = Char.ofNat 13

/-- Skip white space. -/
def skipWhitespace (cs : List Char) : List Char := cs.dropWhile isJsonWhitespace

/-- The character of a two-character escape. -/
def simpleEscape (e : Char) : Option Char :=
  if e = quoteMark then some quoteMark
  else if e = backslash then some backslash
  else if e = '/' then some '/'
  else if e = 'b' then some (Char.ofNat 8)
  else if e = 'f' then some (Char.ofNat 12)
  else if e = 'n' then some (Char.ofNat 10)
  else if e = 'r' then some (Char.ofNat 13)
  else if e = 't' then some (Char.ofNat 9)
  else none

/-- The number that four hexadecimal digits denote. -/
def hex4 (a b c d : Char) : Option Nat :=
  match digitVal 16 a, digitVal 16 b, digitVal 16 c, digitVal 16 d with
  | some x, some y, some z, some w => some (((x * 16 + y) * 16 + z) * 16 + w)
  | _, _, _, _ => none

/-- The character of a `\u` escape whose four digits denote `n`, and what follows it: a
character of the basic plane, or the one that a leading surrogate makes with the trailing
surrogate of the `\u` escape next to it. -/
def parseUnicodeEscape (n : Nat) (rest : List Char) : Option (Char × List Char) :=
  if 0xD800 ≤ n ∧ n < 0xDC00 then
    match rest with
    | b :: u :: l1 :: l2 :: l3 :: l4 :: rest1 =>
      if b = backslash ∧ u = 'u' then
        match hex4 l1 l2 l3 l4 with
        | some m =>
          if 0xDC00 ≤ m ∧ m < 0xE000 then
            some (Char.ofNat (0x10000 + (n - 0xD800) * 0x400 + (m - 0xDC00)), rest1)
          else none
        | none => none
      else none
    | _ => none
  else if 0xDC00 ≤ n ∧ n < 0xE000 then none
  else some (Char.ofNat n, rest)

/-- The character an escape denotes, after its reverse solidus, and what follows it. -/
def parseEscape : List Char → Option (Char × List Char)
  | [] => none
  | e :: rest =>
    if e = 'u' then
      match rest with
      | h1 :: h2 :: h3 :: h4 :: rest1 =>
        match hex4 h1 h2 h3 h4 with
        | some n => parseUnicodeEscape n rest1
        | none => none
      | _ => none
    else
      match simpleEscape e with
      | some ch => some (ch, rest)
      | none => none

/-- The characters of a string up to its closing quote, and what follows the quote; each
character read takes one unit of `fuel`. -/
def parseStringBody : Nat → List Char → Option (List Char × List Char)
  | 0, _ => none
  | _ + 1, [] => none
  | fuel + 1, c :: rest =>
    if c = quoteMark then some ([], rest)
    else if c = backslash then
      match parseEscape rest with
      | some (ch, rest1) => (parseStringBody fuel rest1).map (fun p => (ch :: p.1, p.2))
      | none => none
    else if c.toNat < 32 then none
    else (parseStringBody fuel rest).map (fun p => (c :: p.1, p.2))

/-- The characters a JSON number is written with. -/
def isNumberChar (c : Char) : Bool :=
  c.isDigit || c = '-' || c = '+' || c = '.' || c = 'e' || c = 'E'

/-- Whether the characters are digits, at least one. -/
def isDigits (cs : List Char) : Bool := !cs.isEmpty && cs.all Char.isDigit

/-- Whether the characters are an exponent part, or nothing. -/
def isJsonExponent : List Char → Bool
  | [] => true
  | e :: cs =>
    (e = 'e' || e = 'E') &&
      (match cs with
      | '+' :: ds => isDigits ds
      | '-' :: ds => isDigits ds
      | ds => isDigits ds)

/-- Whether the characters are a fraction part and an exponent part, each or both absent. -/
def isJsonFraction : List Char → Bool
  | '.' :: cs =>
    !(cs.takeWhile Char.isDigit).isEmpty && isJsonExponent (cs.dropWhile Char.isDigit)
  | cs => isJsonExponent cs

/-- Whether the characters are a number of the JSON grammar. -/
def isJsonNumber (cs : List Char) : Bool :=
  match (match cs with | '-' :: r => r | r => r) with
  | [] => false
  | '0' :: r => isJsonFraction r
  | c :: r => c.isDigit && isJsonFraction (r.dropWhile Char.isDigit)

/-- The Number a number token denotes. -/
def parseNumberToken (cs : List Char) : Option JSNum :=
  if isJsonNumber cs then parseDecimal cs else none

mutual

/-- A value at the head of the text, and what follows it. -/
def parseValue : Nat → List Char → Option (Json × List Char)
  | 0, _ => none
  | fuel + 1, cs =>
    match skipWhitespace cs with
    | [] => none
    | c :: rest =>
      if c = quoteMark then
        (parseStringBody rest.length rest).map (fun p => (Json.string (String.mk p.1), p.2))
      else if c = leftBrace then
        match skipWhitespace rest with
        | [] => none
        | d :: rest1 =>
          if d = rightBrace then some (Json.object [], rest1)
          else (parseMembers fuel (d :: rest1)).map (fun p => (Json.object p.1, p.2))
      else if c = '[' then
        match skipWhitespace rest with
        | [] => none
        | d :: rest1 =>
          if d = ']' then some (Json.array [], rest1)
          else (parseElements fuel (d :: rest1)).map (fun p => (Json.array p.1, p.2))
      else if isNumberChar c then
        (parseNumberToken ((c :: rest).takeWhile isNumberChar)).map (fun n =>
          (Json.number n, (c :: rest).dropWhile isNumberChar))
      else
        match c :: rest with
        | 't' :: 'r' :: 'u' :: 'e' :: rest1 => some (Json.bool true, rest1)
        | 'f' :: 'a' :: 'l' :: 's' :: 'e' :: rest1 => some (Json.bool false, rest1)
        | 'n' :: 'u' :: 'l' :: 'l' :: rest1 => some (Json.null, rest1)
        | _ => none

/-- The elements of an array after its bracket, and what follows the closing bracket. -/
def parseElements : Nat → List Char → Option (List Json × List Char)
  | 0, _ => none
  | fuel + 1, cs =>
    match parseValue fuel cs with
    | none => none
    | some (v, rest) =>
      match skipWhitespace rest with
      | [] => none
      | c :: rest1 =>
        if c = ',' then (parseElements fuel rest1).map (fun p => (v :: p.1, p.2))
        else if c = ']' then some ([v], rest1)
        else none

/-- The members of an object after its bracket, and what follows the closing bracket. -/
def parseMembers : Nat → List Char → Option (List (String × Json) × List Char)
  | 0, _ => none
  | fuel + 1, cs =>
    match skipWhitespace cs with
    | [] => none
    | q :: rest =>
      if q = quoteMark then
        match parseStringBody rest.length rest with
        | none => none
        | some (key, rest1) =>
          match skipWhitespace rest1 with
          | [] => none
          | colon :: rest2 =>
            if colon = ':' then
              match parseValue fuel rest2 with
              | none => none
              | some (v, rest3) =>
                match skipWhitespace rest3 with
                | [] => none
                | c :: rest4 =>
                  if c = ',' then
                    (parseMembers fuel rest4).map (fun p => ((String.mk key, v) :: p.1, p.2))
                  else if c = rightBrace then some ([(String.mk key, v)], rest4)
                  else none
            else none
      else none

end

/-- The function `JSON.parse`: the value the whole text denotes. -/
def jsonParse (text : String) : Option Json :=
  match parseValue (2 * text.length + 8) text.toList with
  | some (v, rest) => if skipWhitespace rest = [] then some v else none
  | none => none

/-- The value of a property of a parsed object; the last of several members of one name. -/
def Json.field (key : String) : Json → Option Json
  | .object members => (members.reverse.lookup key)
  | _ => none

/-- The Number that a property of a parsed object holds. -/
def Json.numberField (key : String) (j : Json) : Option JSNum :=
  match j.field key with
  | some (.number n) => some n
  | _ => none

/-- The string that a property of a parsed object holds. -/
def Json.stringField (key : String) (j : Json) : Option String :=
  match j.field key with
  | some (.string s) => some s
  | _ => none

/-- The elements of a parsed array. -/
def Json.items : Json → List Json
  | .array items => items
  | _ => []

/-- The JSON content of `downloadSchedule` parsed back. -/
def parseJsonContent (numberToString : JSNum → String) (self : ToDoList) : Option Json :=
  jsonParse (jsonContent numberToString self)

/-- A parsed object has the `taskNumber`, `task`, `priority`, `time` and `category` of a task. -/
def sameValues (t : TaskRecord) (j : Json) : Bool :=
  decide (j.numberField "taskNumber" = some (JSNum.fin t.taskNumber)) &&
    decide (j.stringField "task" = some t.task) &&
    decide (j.stringField "priority" = some (priorityString t.priority)) &&
    decide (j.numberField "time" = some t.time) &&
    decide (j.stringField "category" = some t.category)

/-- The conversion of a Number to a string, on the whole numbers from 0 to below `10 ^ 21`,
which print as their decimal digits; no other Number is printed by it. -/
def wholeNumberToString : JSNum → String
  | .fin q => if q.den = 1 ∧ 0 ≤ q.num ∧ q.num < 10 ^ 21 then toString q.num.toNat else ""
  | _ => ""

/-- The text a conversion gives a Number is a JSON number that denotes the Number. -/
def printsJsonNumber (numberToString : JSNum → String) (x : JSNum) : Bool :=
  (numberToString x).toList.all isNumberChar &&
    decide (parseNumberToken (numberToString x).toList = some x)

/-- The value `JSON.parse` builds from the text of a task object. -/
def taskJson (t : TaskRecord) : Json :=
  Json.object
    [("taskNumber", Json.number (JSNum.fin t.taskNumber)),
      ("task", Json.string t.task),
      ("priority", Json.string (priorityString t.priority)),
      ("time", if t.time.isFinite then Json.number t.time else Json.null),
      ("category", Json.string t.category)]

/-! ## Arithmetic of `JSNum` -/

@[simp] theorem JSNum.add_def (a b : JSNum) : a + b = JSNum.add a b := rfl

@[simp] theorem JSNum.sub_def (a b : JSNum) : a - b = JSNum.add a (JSNum.neg b) := rfl

@[simp] theorem JSNum.zero_def : (0 : JSNum) = JSNum.fin 0 := by
  show JSNum.fin ((0 : Nat) : ℚ) = JSNum.fin 0
  simp

theorem jsNeg_zero : JSNum.neg (JSNum.fin 0) = JSNum.fin 0 := by
  simp [JSNum.neg]

/-! ## Rounding -/

theorem pow2_pos (e : Int) : 0 < JSNum.pow2 e := by
  unfold JSNum.pow2
  split <;> positivity

theorem pow2_natCast (k : Nat) : JSNum.pow2 (k : Int) = ((2 ^ k : Nat) : ℚ) := by
  simp [JSNum.pow2]

theorem pow2_neg_natCast (k : Nat) : JSNum.pow2 (-(k : Int)) = 1 / ((2 ^ k : Nat) : ℚ) := by
  unfold JSNum.pow2
  by_cases hk : k = 0
  · subst hk
    simp
  · have : ¬ (0 ≤ -(k : Int)) := by omega
    rw [if_neg this]
    simp

theorem roundHalfEven_one (m : Nat) : JSNum.roundHalfEven m 1 = m := by
  simp [JSNum.roundHalfEven, Nat.mod_one]

theorem log2Fuel_spec (fuel n : Nat) (hn : 0 < n) (hf : n ≤ fuel) :
    2 ^ JSNum.log2Fuel fuel n ≤ n ∧ n < 2 ^ (JSNum.log2Fuel fuel n + 1) := by
  induction fuel generalizing n with
  | zero => omega
  | succ fuel ih =>
    simp only [JSNum.log2Fuel]
    split
    · constructor <;> simp <;> omega
    · rename_i h2
      have h1 : 0 < n / 2 := Nat.div_pos (by omega) (by omega)
      have h3 : n / 2 ≤ fuel := by omega
      obtain ⟨ha, hb⟩ := ih (n / 2) h1 h3
      constructor
      · rw [pow_succ]
        omega
      · rw [pow_succ]
        omega

theorem floorLog2_spec (n : Nat) (hn : 0 < n) :
    2 ^ JSNum.floorLog2 n ≤ n ∧ n < 2 ^ (JSNum.floorLog2 n + 1) :=
  log2Fuel_spec n n hn (le_refl n)

theorem floorLog2_one : JSNum.floorLog2 1 = 0 := by decide

theorem roundMagnitude_natCast (n : Nat) (hn : 0 < n) (h : n < 2 ^ 53) :
    JSNum.roundMagnitude (n : ℚ) = (n : ℚ) := by
  obtain ⟨hlo, hhi⟩ := floorLog2_spec n hn
  have hL : JSNum.floorLog2 n ≤ 52 := by
    by_contra hc
    have : 2 ^ 53 ≤ 2 ^ JSNum.floorLog2 n := Nat.pow_le_pow_right (by omega) (by omega)
    omega
  have hexp : JSNum.binaryExponent (n : ℚ) = (JSNum.floorLog2 n : Int) := by
    simp only [JSNum.binaryExponent, Rat.num_natCast, Int.toNat_ofNat, Rat.den_natCast,
      floorLog2_one, Nat.cast_zero, sub_zero]
    rw [if_pos]
    rw [pow2_natCast]
    exact_mod_cast hlo
  obtain ⟨k, hk⟩ : ∃ k : Nat, (JSNum.floorLog2 n : Int) - 52 = -(k : Int) :=
    ⟨52 - JSNum.floorLog2 n, by omega⟩
  have hmax : max (JSNum.floorLog2 n : Int) (-1022) = (JSNum.floorLog2 n : Int) := by omega
  have hq : (n : ℚ) / (1 / ((2 ^ k : Nat) : ℚ)) = ((n * 2 ^ k : Nat) : ℚ) := by
    push_cast
    field_simp
  simp only [JSNum.roundMagnitude, hexp, hmax, hk, pow2_neg_natCast, hq, Rat.num_natCast,
    Int.toNat_ofNat, Rat.den_natCast, roundHalfEven_one]
  push_cast
  field_simp

theorem round64_natCast (n : Nat) (h : n < 2 ^ 53) :
    JSNum.round64 (n : ℚ) = JSNum.fin n := by
  by_cases hn : n = 0
  · subst hn
    simp [JSNum.round64]
  · have hpos : (0 : ℚ) < n := by exact_mod_cast Nat.pos_of_ne_zero hn
    have hne : (n : ℚ) ≠ 0 := ne_of_gt hpos
    rw [JSNum.round64, if_neg hne, if_pos hpos,
      roundMagnitude_natCast n (Nat.pos_of_ne_zero hn) h]
    rw [if_neg]
    rw [show (1024 : Int) = ((1024 : Nat) : Int) from rfl, pow2_natCast]
    have : n < 2 ^ 1024 := lt_of_lt_of_le h (Nat.pow_le_pow_right (by omega) (by omega))
    push_cast
    have h2 : (n : ℚ) < 2 ^ 1024 := by exact_mod_cast this
    linarith

theorem roundMagnitude_nonneg (a : ℚ) : 0 ≤ JSNum.roundMagnitude a := by
  unfold JSNum.roundMagnitude
  have := pow2_pos (max (JSNum.binaryExponent a) (-1022) - 52)
  positivity

theorem round64_nonneg (q : ℚ) (h : 0 ≤ q) :
    JSNum.le (JSNum.fin 0) (JSNum.round64 q) = true := by
  unfold JSNum.round64
  split
  · simp [JSNum.le]
  · split
    · split
      · rfl
      · simpa [JSNum.le] using roundMagnitude_nonneg q
    · rename_i h0 hpos
      exact absurd (lt_of_le_of_ne h (Ne.symm h0)) hpos

theorem jsAdd_natCast (a b : Nat) (h : a + b < 2 ^ 53) :
    JSNum.add (JSNum.fin a) (JSNum.fin b) = JSNum.fin ((a + b : Nat) : ℚ) := by
  simp only [JSNum.add]
  rw [← round64_natCast (a + b) h]
  push_cast
  rfl

theorem jsSub_natCast (a b : Nat) (hb : b ≤ a) (h : a < 2 ^ 53) :
    JSNum.add (JSNum.fin a) (JSNum.neg (JSNum.fin b)) = JSNum.fin ((a - b : Nat) : ℚ) := by
  simp only [JSNum.add, JSNum.neg]
  rw [← round64_natCast (a - b) (by omega)]
  rw [Nat.cast_sub hb, sub_eq_add_neg]

theorem isWholeMinutes_iff (x : JSNum) (h : x.isWholeMinutes = true) :
    ∃ n : Nat, n < 2 ^ 52 ∧ x = JSNum.fin n := by
  cases x with
  | fin q =>
    simp only [JSNum.isWholeMinutes, Bool.and_eq_true, decide_eq_true_eq] at h
    obtain ⟨⟨hden, hnum⟩, hlt⟩ := h
    refine ⟨q.num.toNat, by omega, ?_⟩
    congr 1
    have hq : q = (q.num : ℚ) := (Rat.den_eq_one_iff q).1 hden |>.symm
    rw [hq]
    have : ((q.num.toNat : Nat) : Int) = q.num := Int.toNat_of_nonneg hnum
    simp only [Rat.num_intCast]
    exact_mod_cast this.symm
  | nan => simp [JSNum.isWholeMinutes] at h
  | negInf => simp [JSNum.isWholeMinutes] at h
  | posInf => simp [JSNum.isWholeMinutes] at h

/-! ## Sums of durations -/

theorem totalDuration_nil : totalDuration [] = JSNum.fin 0 := by
  simp [totalDuration]

theorem totalDuration_append_singleton (l : List TaskRecord) (t : TaskRecord) :
    totalDuration (l ++ [t]) = JSNum.add (totalDuration l) t.time := by
  simp [totalDuration, List.foldl_append]

/-! ## The sort is a permutation -/

theorem sortInsert_perm {α : Type} (cmp : α → α → Int) (a : α) (l : List α) :
    (sortInsert cmp a l).Perm (a :: l) := by
  induction l with
  | nil => exact List.Perm.refl _
  | cons b l ih =>
    simp only [sortInsert]
    split
    · exact List.Perm.refl _
    · exact (ih.cons b).trans (List.Perm.swap a b l)

theorem sort_perm {α : Type} (cmp : α → α → Int) (l : List α) : (sort cmp l).Perm l := by
  induction l with
  | nil => exact List.Perm.refl _
  | cons a l ih => exact (sortInsert_perm cmp a _).trans (ih.cons a)

/-! ## The loop of `allocateTimeForTasks` -/

theorem allocateLoop_acc (l : List TaskRecord) (r : JSNum) (acc : List TaskRecord) :
    allocateLoop l r acc = acc ++ allocateLoop l r [] := by
  induction l generalizing r acc with
  | nil => simp [allocateLoop]
  | cons t l ih =>
    simp only [allocateLoop]
    split
    · rw [ih, ih _ ([] ++ [t])]
      simp
    · simp

theorem allocateLoop_cons (t : TaskRecord) (l : List TaskRecord) (r : JSNum) :
    allocateLoop (t :: l) r [] =
      if JSNum.le t.time r = true then t :: allocateLoop l (r - t.time) [] else [] := by
  simp only [allocateLoop, JSNum.ge]
  split
  · rw [allocateLoop_acc]
    simp
  · rfl

theorem fitsAt_zero (b : JSNum) (t : TaskRecord) (l : List TaskRecord) :
    fitsAt b (t :: l) 0 = JSNum.le t.time b := by
  simp [fitsAt, remainingAfter]

theorem fitsAt_succ (b : JSNum) (t : TaskRecord) (l : List TaskRecord) (i : Nat) :
    fitsAt b (t :: l) (i + 1) = fitsAt (b - t.time) l i := by
  simp [fitsAt, remainingAfter]

theorem allocateLoop_isPrefix (l : List TaskRecord) (b : JSNum) :
    allocateLoop l b [] <+: l := by
  induction l generalizing b with
  | nil => simp [allocateLoop]
  | cons t l ih =>
    rw [allocateLoop_cons]
    split
    · exact ( List.prefix_cons_inj t).2 (ih _)
    · exact List.nil_prefix

theorem allocateLoop_longest (l : List TaskRecord) (b : JSNum) (n : Nat) (hn : n ≤ l.length) :
    (∀ i, i < n → fitsAt b l i = true) ↔ n ≤ (allocateLoop l b []).length := by
  induction l generalizing b n with
  | nil =>
    have : n = 0 := by simpa using hn
    subst this
    simp
  | cons t l ih =>
    cases n with
    | zero => simp
    | succ m =>
      have hm : m ≤ l.length := by simpa using hn
      rw [allocateLoop_cons]
      by_cases h : JSNum.le t.time b = true
      · rw [if_pos h]
        simp only [List.length_cons, Nat.add_le_add_iff_right]
        rw [← ih (b - t.time) m hm]
        constructor
        · intro H i hi
          have := H (i + 1) (by omega)
          rwa [fitsAt_succ] at this
        · intro H i hi
          cases i with
          | zero => rw [fitsAt_zero]; exact h
          | succ j => rw [fitsAt_succ]; exact H j (by omega)
      · rw [if_neg h]
        simp only [List.length_nil, Nat.le_zero_eq, Nat.add_one_ne_zero, iff_false]
        intro H
        have := H 0 (by omega)
        rw [fitsAt_zero] at this
        exact h this

/-- C1: the list `allocateTimeForTasks` hands to `renderTasks` is the longest run of
`sortTasks()` from its start in which every task has a `time` that is `<=` the budget minus
the durations of the tasks before it, subtracted from it one after the other.  The example
ledger, whose sorted durations are 10, 25 and 5, gets the 10-minute task alone out of a budget
of 20; of the tasks of 1, 1 and 58 seconds a budget of one minute takes the first two, for in
doubles 1 - 1/60 - 1/60 is less than 58/60. -/
theorem allocateTimeForTasks_longest_fitting (self : ToDoList) (budget : JSNum) :
    allocateTimeForTasks self budget <+: (sortTasks self).1 ∧
    (∀ n, n ≤ (sortTasks self).1.length →
      ((∀ i, i < n → fitsAt budget (sortTasks self).1 i = true) ↔
        n ≤ (allocateTimeForTasks self budget).length)) ∧
    (sortTasks exampleLedger).1.map TaskRecord.time = [10, 25, 5] ∧
    (allocateTimeForTasks exampleLedger 20).map TaskRecord.time = [10] ∧
    (allocateTimeForTasks secondsLedger 1).map TaskRecord.task =
      ["open the window", "close the door"] ∧
    fitsAt 1 (sortTasks secondsLedger).1 2 = false := by
  refine ⟨allocateLoop_isPrefix _ _, fun n hn => allocateLoop_longest _ _ n hn, ?_, ?_, ?_, ?_⟩
  · decide!
  · decide!
  · decide!
  · decide!

/-! ## The budget is not exceeded -/

theorem jsLe_not_gt (t b : JSNum) (h : JSNum.le t b = true) : JSNum.gt t b = false := by
  cases t <;> cases b <;> simp_all [JSNum.le, JSNum.gt, JSNum.lt]

theorem jsLe_natCast (a b : Nat) :
    JSNum.le (JSNum.fin a) (JSNum.fin b) = true ↔ a ≤ b := by
  simp [JSNum.le]

theorem allocateLoop_total_whole (l : List TaskRecord) (R S B : Nat) (hRS : R + S = B)
    (hB : B < 2 ^ 52) (hl : ∀ t, t ∈ l → t.time.isWholeMinutes = true) :
    ∃ T : Nat, T ≤ B ∧
      (allocateLoop l (JSNum.fin R) []).foldl (fun s t => s + t.time) (JSNum.fin S) =
        JSNum.fin T := by
  induction l generalizing R S with
  | nil => exact ⟨S, by omega, by simp [allocateLoop]⟩
  | cons t l ih =>
    obtain ⟨d, hd, htd⟩ := isWholeMinutes_iff t.time (hl t (List.mem_cons_self _ _))
    have hl' : ∀ u, u ∈ l → u.time.isWholeMinutes = true :=
      fun u hu => hl u (List.mem_cons_of_mem _ hu)
    rw [allocateLoop_cons, htd]
    by_cases h : JSNum.le (JSNum.fin d) (JSNum.fin R) = true
    · have hdR : d ≤ R := (jsLe_natCast d R).1 h
      rw [if_pos h]
      simp only [List.foldl_cons, JSNum.sub_def, JSNum.add_def, htd]
      rw [jsSub_natCast R d hdR (by omega), jsAdd_natCast S d (by omega)]
      exact ih (R - d) (S + d) (by omega) hl'
    · rw [if_neg h]
      exact ⟨S, by omega, by simp⟩

/-- C2, as stated, fails.  With a budget of -1 the example ledger has no task selected, and the
sum of the empty selection, 0, exceeds the budget.  With a budget of 3 the tasks of 0.8, 1.6
and 0.6 minutes are all selected, each fitting what the ones before it left, and their
durations sum, in doubles, to 3.0000000000000004. -/
theorem allocateTimeForTasks_exceeds_budget :
    allocateTimeForTasks exampleLedger (JSNum.fin (-1)) = [] ∧
    JSNum.gt (totalDuration (allocateTimeForTasks exampleLedger (JSNum.fin (-1))))
      (JSNum.fin (-1)) = true ∧
    (allocateTimeForTasks fractionLedger 3).map TaskRecord.time =
      [toNumber "0.8", toNumber "1.6", toNumber "0.6"] ∧
    totalDuration (allocateTimeForTasks fractionLedger 3) = toNumber "3.0000000000000004" ∧
    JSNum.gt (totalDuration (allocateTimeForTasks fractionLedger 3)) 3 = true := by
  decide!

/-- C2, amended: for every ledger whose durations are whole numbers of minutes from 0 to below
2^52 and every budget that is such a whole number, the summed `time` of the list selected by
`allocateTimeForTasks` is `<=` the budget. -/
theorem allocateTimeForTasks_within_budget (self : ToDoList) (budget : JSNum)
    (hb : budget.isWholeMinutes = true)
    (hl : self.tasks.all (fun t => t.time.isWholeMinutes) = true) :
    JSNum.le (totalDuration (allocateTimeForTasks self budget)) budget = true := by
  obtain ⟨B, hB, rfl⟩ := isWholeMinutes_iff budget hb
  have hs : ∀ t, t ∈ (sortTasks self).1 → t.time.isWholeMinutes = true := by
    intro t ht
    exact List.all_eq_true.1 hl t ((sort_perm comparePriority self.tasks).mem_iff.1 ht)
  obtain ⟨T, hT, hsum⟩ := allocateLoop_total_whole (sortTasks self).1 B 0 B (by omega) hB hs
  simp only [totalDuration, allocateTimeForTasks, JSNum.zero_def]
  simp only [Nat.cast_zero] at hsum
  rw [hsum]
  exact (jsLe_natCast T B).2 hT

theorem allocateTimeForTasks_within_budget_witness :
    (20 : JSNum).isWholeMinutes = true ∧
    exampleLedger.tasks.all (fun t => t.time.isWholeMinutes) = true ∧
    JSNum.le (totalDuration (allocateTimeForTasks exampleLedger 20)) 20 = true :=
  ⟨by decide!, by decide!,
    allocateTimeForTasks_within_budget exampleLedger 20 (by decide!) (by decide!)⟩

/-! ## The loop of `suggestTaskOrder` -/

theorem suggestLoop_eq_scan (l : List TaskRecord) (b totalTime : JSNum)
    (taskOrder : List TaskRecord) (h : totalTime = totalDuration taskOrder) :
    suggestLoop l b totalTime taskOrder = scanIncluding b l taskOrder := by
  induction l generalizing totalTime taskOrder with
  | nil => simp [suggestLoop, scanIncluding]
  | cons t l ih =>
    subst h
    simp only [suggestLoop, scanIncluding]
    split
    · exact ih _ _ (by rw [totalDuration_append_singleton]; rfl)
    · exact ih _ _ rfl

theorem scanIncluding_sublist (l : List TaskRecord) (b : JSNum) (included : List TaskRecord) :
    ∃ l', List.Sublist l' l ∧ scanIncluding b l included = included ++ l' := by
  induction l generalizing included with
  | nil => exact ⟨[], List.Sublist.refl _, by simp [scanIncluding]⟩
  | cons t l ih =>
    simp only [scanIncluding]
    split
    · obtain ⟨l', hl, he⟩ := ih (included ++ [t])
      exact ⟨t :: l', hl.cons₂ t, by rw [he]; simp⟩
    · obtain ⟨l', hl, he⟩ := ih included
      exact ⟨l', hl.cons t, he⟩

/-- C3: `suggestTaskOrder` returns the subsequence of `sortTasks()` obtained by scanning it in
order and including a task exactly when the total duration of the tasks already included plus
its own `time` is `<=` the budget, skipping the others; on the example ledger (sorted
durations 10, 25, 5) a budget of 20 yields the tasks of 10 and 5 minutes. -/
theorem suggestTaskOrder_eq_scan (self : ToDoList) (budget : JSNum) :
    suggestTaskOrder self budget = scanIncluding budget (sortTasks self).1 [] ∧
    List.Sublist (suggestTaskOrder self budget) (sortTasks self).1 ∧
    (suggestTaskOrder exampleLedger 20).map TaskRecord.time = [10, 5] := by
  have h : suggestTaskOrder self budget = scanIncluding budget (sortTasks self).1 [] :=
    suggestLoop_eq_scan _ _ _ _ (by simp [totalDuration])
  refine ⟨h, ?_, by decide!⟩
  obtain ⟨l', hl, he⟩ := scanIncluding_sublist (sortTasks self).1 budget []
  rw [h, he]
  simpa using hl

/-! ## The sort -/

theorem sortInsert_pairwise (a : TaskRecord) (l : List TaskRecord)
    (h : l.Pairwise (fun x y => priorityOrder x.priority ≤ priorityOrder y.priority)) :
    (sortInsert comparePriority a l).Pairwise
      (fun x y => priorityOrder x.priority ≤ priorityOrder y.priority) := by
  induction l with
  | nil => simp [sortInsert]
  | cons b l ih =>
    rw [List.pairwise_cons] at h
    simp only [sortInsert]
    split
    · rename_i hab
      have hab' : priorityOrder a.priority ≤ priorityOrder b.priority := by
        simp only [comparePriority] at hab; omega
      refine List.pairwise_cons.2 ⟨?_, List.pairwise_cons.2 h⟩
      intro y hy
      rcases List.mem_cons.1 hy with rfl | hy
      · exact hab'
      · exact le_trans hab' (h.1 y hy)
    · rename_i hab
      have hba : priorityOrder b.priority ≤ priorityOrder a.priority := by
        simp only [comparePriority] at hab; omega
      refine List.pairwise_cons.2 ⟨?_, ih h.2⟩
      intro y hy
      rcases List.mem_cons.1 ((sortInsert_perm comparePriority a l).mem_iff.1 hy) with rfl | hy
      · exact hba
      · exact h.1 y hy

theorem sort_pairwise (l : List TaskRecord) :
    (sort comparePriority l).Pairwise
      (fun x y => priorityOrder x.priority ≤ priorityOrder y.priority) := by
  induction l with
  | nil => simp [sort]
  | cons a l ih => exact sortInsert_pairwise a _ ih

theorem priorityOrder_injective (p q : Priority) (h : priorityOrder p = priorityOrder q) :
    p = q := by
  cases p <;> cases q <;> simp [priorityOrder] at h <;> rfl

theorem sortInsert_filter (p : Priority) (a : TaskRecord) (l : List TaskRecord) :
    (sortInsert comparePriority a l).filter (fun t => decide (t.priority = p)) =
      (a :: l).filter (fun t => decide (t.priority = p)) := by
  induction l with
  | nil => simp [sortInsert]
  | cons b l ih =>
    simp only [sortInsert]
    split
    · rfl
    · rename_i hab
      have hne : a.priority ≠ b.priority := by
        intro he
        apply hab
        simp [comparePriority, he]
      rw [List.filter_cons, ih]
      by_cases ha : a.priority = p
      · have hb : ¬ b.priority = p := fun hb => hne (ha.trans hb.symm)
        simp [List.filter_cons, ha, hb]
      · by_cases hb : b.priority = p <;> simp [List.filter_cons, ha, hb]

theorem sort_filter (p : Priority) (l : List TaskRecord) :
    (sort comparePriority l).filter (fun t => decide (t.priority = p)) =
      l.filter (fun t => decide (t.priority = p)) := by
  induction l with
  | nil => simp [sort]
  | cons a l ih =>
    simp only [sort]
    rw [sortInsert_filter, List.filter_cons, List.filter_cons, ih]

/-- C4: `sortTasks()` returns a permutation of the stored collection, ordered ascending by the
priority rank High (1) < Normal (2) < Low (3), and leaves the ledger as it was. -/
theorem sortTasks_perm_sorted (self : ToDoList) :
    (sortTasks self).1.Perm self.tasks ∧
    (sortTasks self).1.Pairwise
      (fun a b => priorityOrder a.priority ≤ priorityOrder b.priority) ∧
    (priorityOrder Priority.High = 1 ∧ priorityOrder Priority.Normal = 2 ∧
      priorityOrder Priority.Low = 3) ∧
    (sortTasks self).2 = self :=
  ⟨sort_perm _ _, sort_pairwise _, ⟨rfl, rfl, rfl⟩, rfl⟩

/-- C5: `sortTasks()` is stable: for each priority, the tasks of that priority appear in the
result in the order they have in the stored collection; in particular, of two tasks of equal
priority, the one that comes first in the stored collection comes first in the result. -/
theorem sortTasks_stable (self : ToDoList) :
    (∀ p : Priority, (sortTasks self).1.filter (fun t => decide (t.priority = p)) =
      self.tasks.filter (fun t => decide (t.priority = p))) ∧
    (∀ a b : TaskRecord, a.priority = b.priority → List.Sublist [a, b] self.tasks →
      List.Sublist [a, b] (sortTasks self).1) := by
  have hf : ∀ p : Priority, (sortTasks self).1.filter (fun t => decide (t.priority = p)) =
      self.tasks.filter (fun t => decide (t.priority = p)) := fun p => sort_filter p _
  refine ⟨hf, ?_⟩
  intro a b hab hs
  have h1 : List.Sublist ([a, b].filter (fun t => decide (t.priority = b.priority)))
      (self.tasks.filter (fun t => decide (t.priority = b.priority))) := hs.filter _
  rw [← hf] at h1
  have h2 : [a, b].filter (fun t => decide (t.priority = b.priority)) = [a, b] := by
    simp [hab]
  rw [h2] at h1
  exact h1.trans (List.filter_sublist _)

/-! ## Keywords -/

theorem includesChars_iff (cs kw : List Char) : includesChars cs kw = true ↔ kw <:+: cs := by
  induction cs with
  | nil => simp [includesChars]
  | cons c cs ih =>
    simp only [includesChars, Bool.or_eq_true, ih, List.infix_cons_iff]
    rw [ List.isPrefixOf_iff_prefix]

theorem any_includes_iff (keywords : List String) (description : String) :
    keywords.any (fun keyword => includes (toLowerCase description) keyword) = true ↔
      containsKeyword keywords description := by
  simp [containsKeyword, includes, includesChars_iff]

/-- C6: `getPriority` is High when the lower-cased description contains "urgent", "important"
or "asap"; otherwise Low when it contains "low", "later" or "someday"; otherwise Normal.  So
descriptions that differ only in case get the same priority, and a description with a keyword
of each class is High. -/
theorem getPriority_spec (d : String) :
    (containsKeyword ["urgent", "important", "asap"] d → getPriority d = Priority.High) ∧
    (¬ containsKeyword ["urgent", "important", "asap"] d →
      containsKeyword ["low", "later", "someday"] d → getPriority d = Priority.Low) ∧
    (¬ containsKeyword ["urgent", "important", "asap"] d →
      ¬ containsKeyword ["low", "later", "someday"] d → getPriority d = Priority.Normal) ∧
    (∀ e : String, toLowerCase e = toLowerCase d → getPriority e = getPriority d) ∧
    (containsKeyword ["urgent", "important", "asap"] d →
      containsKeyword ["low", "later", "someday"] d → getPriority d = Priority.High) ∧
    getPriority "Call the bank ASAP" = Priority.High ∧
    getPriority "URGENT: renew passport, or do it later" = Priority.High ∧
    getPriority "Tidy the garage Someday" = Priority.Low ∧
    getPriority "Buy milk" = Priority.Normal := by
  have hH := any_includes_iff highPriorityKeywords d
  have hL := any_includes_iff lowPriorityKeywords d
  simp only [highPriorityKeywords] at hH
  simp only [lowPriorityKeywords] at hL
  refine ⟨?_, ?_, ?_, ?_, ?_, by decide, by decide, by decide, by decide⟩
  · intro h
    simp only [getPriority, highPriorityKeywords]
    rw [if_pos (hH.2 h)]
  · intro h1 h2
    simp only [getPriority, highPriorityKeywords, lowPriorityKeywords]
    rw [if_neg (fun h => h1 (hH.1 h)), if_pos (hL.2 h2)]
  · intro h1 h2
    simp only [getPriority, highPriorityKeywords, lowPriorityKeywords]
    rw [if_neg (fun h => h1 (hH.1 h)), if_neg (fun h => h2 (hL.1 h))]
  · intro e he
    simp only [getPriority, he]
  · intro h _
    simp only [getPriority, highPriorityKeywords]
    rw [if_pos (hH.2 h)]

/-! ## Time strings -/

theorem toNumber_empty : toNumber "" = JSNum.fin 0 := by decide!

theorem orZero_eq_componentValue (timeString : String) (i : Nat) :
    orZero (((split timeString ':').map toNumber)[i]?) = componentValue timeString i := by
  simp only [componentValue, List.getElem?_map]
  cases (split timeString ':')[i]? with
  | none => rfl
  | some c =>
    simp only [Option.map_some', orZero]
    by_cases hc : c = ""
    · subst hc
      rw [toNumber_empty]
      simp [JSNum.truthy]
    · rw [if_neg hc]
      cases h : toNumber c <;> simp [JSNum.truthy]
      intro h0
      rw [h0]

/-- C7: `convertToMinutes` returns `H*60 + M + S/60`, where `H`, `M` and `S` are the numeric
values of the first, second and third colon-separated components and an absent, empty or
non-numeric component counts as 0; so "1:30:00" gives 90, "0:0:90" gives 1.5 and "" gives 0. -/
theorem convertToMinutes_formula (timeString : String) :
    convertToMinutes timeString =
      componentValue timeString 0 * 60 + componentValue timeString 1 +
        componentValue timeString 2 / 60 ∧
    convertToMinutes "1:30:00" = JSNum.fin 90 ∧
    convertToMinutes "0:0:90" = JSNum.fin (3 / 2) ∧
    convertToMinutes "" = JSNum.fin 0 := by
  refine ⟨?_, by decide!, by decide!, by decide!⟩
  simp only [convertToMinutes]
  rw [orZero_eq_componentValue, orZero_eq_componentValue, orZero_eq_componentValue]

/-! ## The sign of a duration -/

theorem jsSixty : (60 : JSNum) = JSNum.fin 60 := by
  show JSNum.fin ((60 : Nat) : ℚ) = JSNum.fin 60
  norm_num

theorem jsNonneg_add (a b : JSNum) (ha : JSNum.le (JSNum.fin 0) a = true)
    (hb : JSNum.le (JSNum.fin 0) b = true) : JSNum.le (JSNum.fin 0) (JSNum.add a b) = true := by
  cases a <;> cases b <;> simp_all [JSNum.le, JSNum.add]
  exact round64_nonneg _ (by positivity)

theorem jsNonneg_mul_sixty (a : JSNum) (ha : JSNum.le (JSNum.fin 0) a = true) :
    JSNum.le (JSNum.fin 0) (JSNum.mul a (JSNum.fin 60)) = true := by
  cases a <;> simp_all [JSNum.le, JSNum.mul, JSNum.infOfSign]
  exact round64_nonneg _ (by positivity)

theorem jsNonneg_div_sixty (a : JSNum) (ha : JSNum.le (JSNum.fin 0) a = true) :
    JSNum.le (JSNum.fin 0) (JSNum.div a (JSNum.fin 60)) = true := by
  cases a <;> simp_all [JSNum.le, JSNum.div]
  · exact round64_nonneg _ (by positivity)
  · norm_num [JSNum.le]

theorem orZero_nonneg (o : Option JSNum)
    (h : ∀ x, o = some x → JSNum.gt (JSNum.fin 0) x = false) :
    JSNum.le (JSNum.fin 0) (orZero o) = true := by
  cases o with
  | none => simp [orZero, JSNum.le]
  | some x =>
    have hx := h x rfl
    cases x with
    | nan => simp [orZero, JSNum.le, JSNum.truthy]
    | negInf => simp [JSNum.gt, JSNum.lt] at hx
    | posInf => simp [orZero, JSNum.le, JSNum.truthy]
    | fin q =>
      have hq : 0 ≤ q := by simpa [JSNum.gt, JSNum.lt] using hx
      by_cases h0 : q = 0
      · simp [orZero, JSNum.le, JSNum.truthy, h0]
      · simp [orZero, JSNum.le, JSNum.truthy, h0, hq]

theorem componentsNotNegative_getElem (timeString : String)
    (h : componentsNotNegative timeString = true) (i : Nat) (hi : i < 3) (x : JSNum)
    (hx : ((split timeString ':').map toNumber)[i]? = some x) :
    JSNum.gt (JSNum.fin 0) x = false := by
  simp only [componentsNotNegative, List.all_eq_true] at h
  rw [List.getElem?_map] at hx
  cases hc : (split timeString ':')[i]? with
  | none => simp [hc] at hx
  | some c =>
    rw [hc] at hx
    simp only [Option.map_some', Option.some.injEq] at hx
    have hmem : c ∈ (split timeString ':').take 3 := by
      apply List.getElem?_mem (n := i)
      rw [List.getElem?_take_of_lt hi]
      exact hc
    have := h c hmem
    subst hx
    simpa using this

theorem convertToMinutes_nonneg_of_components (timeString : String)
    (h : componentsNotNegative timeString = true) :
    JSNum.le 0 (convertToMinutes timeString) = true := by
  have h0 := orZero_nonneg _ (componentsNotNegative_getElem timeString h 0 (by omega))
  have h1 := orZero_nonneg _ (componentsNotNegative_getElem timeString h 1 (by omega))
  have h2 := orZero_nonneg _ (componentsNotNegative_getElem timeString h 2 (by omega))
  simp only [convertToMinutes, JSNum.zero_def, jsSixty]
  exact jsNonneg_add _ _ (jsNonneg_add _ _ (jsNonneg_mul_sixty _ h0) h1)
    (jsNonneg_div_sixty _ h2)

theorem addTask_getLast (self : ToDoList) (task timeToComplete category : String) :
    ∃ t, (addTask self task timeToComplete category).tasks.getLast? = some t ∧
      t.time = convertToMinutes timeToComplete := by
  simp [addTask, List.getLast?_concat]

theorem updateTask_storedTime (self : ToDoList) (index : Int) (task timeToComplete : String) :
    (updateTask self index task timeToComplete).storedTime index =
      some (convertToMinutes timeToComplete) := by
  simp only [updateTask]
  split
  · rfl
  · split
    · rename_i old hold
      have hlt : index.toNat < self.tasks.length := (List.getElem?_eq_some.1 hold).1
      simp [UpdateResult.storedTime, List.getElem?_set_self hlt]
    · rfl

/-- C8, as stated, fails: `addTask` with the time string "-1:30" stores a duration of -30. -/
theorem addTask_negative_duration :
    (addTask ToDoList.new "pay the rent" "-1:30" "home").tasks.map TaskRecord.time =
      [JSNum.fin (-30)] ∧
    JSNum.le 0 (JSNum.fin (-30)) = false := by
  decide!

/-- C8, amended: for every time string whose first three colon-separated components each have
a Number value that is not negative, the duration computed by `convertToMinutes`, which is the
`time` that `addTask` and `updateTask` store in the task, is `>= 0`. -/
theorem stored_duration_nonneg (timeString : String)
    (h : componentsNotNegative timeString = true) :
    JSNum.le 0 (convertToMinutes timeString) = true ∧
    (∀ (self : ToDoList) (task category : String),
      ∃ t, (addTask self task timeString category).tasks.getLast? = some t ∧
        t.time = convertToMinutes timeString) ∧
    (∀ (self : ToDoList) (index : Int) (task : String),
      (updateTask self index task timeString).storedTime index =
        some (convertToMinutes timeString)) :=
  ⟨convertToMinutes_nonneg_of_components timeString h,
    fun self task category => addTask_getLast self task timeString category,
    fun self index task => updateTask_storedTime self index task timeString⟩

theorem stored_duration_nonneg_witness :
    componentsNotNegative "1:30:00" = true ∧
    JSNum.le 0 (convertToMinutes "1:30:00") = true :=
  ⟨by decide!, (stored_duration_nonneg "1:30:00" (by decide!)).1⟩

/-! ## Removal and renumbering -/

theorem renumber_taskNumber (l : List TaskRecord) (n : Nat) :
    ((l.enumFrom n).map
      (fun (index, task) => { task with taskNumber := index + 1 })).map TaskRecord.taskNumber =
      List.range' (n + 1) l.length := by
  induction l generalizing n with
  | nil => rfl
  | cons t l ih =>
    simp only [List.enumFrom_cons, List.map_cons, List.length_cons, List.range'_succ]
    rw [ih (n + 1)]

theorem renumber_content (l : List TaskRecord) (n : Nat) :
    ((l.enumFrom n).map
      (fun (index, task) => { task with taskNumber := index + 1 })).map TaskRecord.content =
      l.map TaskRecord.content := by
  induction l generalizing n with
  | nil => rfl
  | cons t l ih =>
    simp only [List.enumFrom_cons, List.map_cons]
    rw [ih (n + 1)]
    rfl

theorem reassignTaskNumbers_length (self : ToDoList) :
    (reassignTaskNumbers self).tasks.length = self.tasks.length := by
  simp [reassignTaskNumbers, List.enum]

theorem splice_one_of_lt {α : Type} (l : List α) (i : Nat) (hi : i < l.length) :
    splice l (i : Int) 1 = l.eraseIdx i := by
  have h1 : ¬ ((i : Int) < 0) := by omega
  have h2 : min (i : Int) (l.length : Int) = (i : Int) := by omega
  have h3 : min (max (1 : Int) 0) ((l.length : Int) - (i : Int)) = 1 := by omega
  simp only [splice, if_neg h1, h2, h3]
  rw [ List.eraseIdx_eq_take_drop_succ]
  rfl

/-- C9: for every ledger, whatever its sequence numbers, and every index, after `removeTask`
the `taskNumber`s of the collection are exactly 1, 2, ..., count in collection order. -/
theorem removeTask_taskNumbers (self : ToDoList) (index : Int) :
    (removeTask self index).tasks.map TaskRecord.taskNumber =
      List.range' 1 (removeTask self index).tasks.length := by
  have h := renumber_taskNumber (splice self.tasks index 1) 0
  have hl : (removeTask self index).tasks.length = (splice self.tasks index 1).length := by
    simp [removeTask, reassignTaskNumbers, List.enum]
  rw [hl]
  exact h

/-- C10: for every ledger of N tasks and every index `i` with `0 <= i < N`, `removeTask(i)`
leaves N-1 tasks which, `taskNumber` aside, are the original collection with its `i`-th element
erased: description, priority, duration, category and relative order are kept. -/
theorem removeTask_erases (self : ToDoList) (i : Nat) (hi : i < self.tasks.length) :
    (removeTask self (i : Int)).tasks.length = self.tasks.length - 1 ∧
    (removeTask self (i : Int)).tasks.map TaskRecord.content =
      (self.tasks.eraseIdx i).map TaskRecord.content := by
  have hs := splice_one_of_lt self.tasks i hi
  constructor
  · simp only [removeTask, reassignTaskNumbers_length]
    rw [hs, List.length_eraseIdx, if_pos hi]
  · simp only [removeTask, reassignTaskNumbers, List.enum]
    rw [renumber_content, hs]

theorem removeTask_erases_witness :
    1 < exampleLedger.tasks.length ∧
    (removeTask exampleLedger 1).tasks.length = exampleLedger.tasks.length - 1 ∧
    (removeTask exampleLedger 1).tasks.map TaskRecord.content =
      (exampleLedger.tasks.eraseIdx 1).map TaskRecord.content :=
  ⟨by decide, removeTask_erases exampleLedger 1 (by decide)⟩

/-! ## Sequence numbers along calls -/

theorem addTask_numbered (self : ToDoList) (task timeToComplete category : String)
    (h : self.tasks.map TaskRecord.taskNumber = List.range' 1 self.tasks.length) :
    (addTask self task timeToComplete category).tasks.map TaskRecord.taskNumber =
      List.range' 1 (addTask self task timeToComplete category).tasks.length := by
  simp only [addTask, List.map_append, List.length_append, List.length_singleton, List.map_cons,
    List.map_nil, List.range'_concat, h]
  simp [Nat.add_comm]

theorem updateTask_inRange_tasks (self self' : ToDoList) (index : Int)
    (task timeToComplete : String)
    (h : updateTask self index task timeToComplete = UpdateResult.inRange self') :
    ∃ old, self.tasks[index.toNat]? = some old ∧ 0 ≤ index ∧
      self'.tasks = self.tasks.set index.toNat
        ({ old with task := task, time := convertToMinutes timeToComplete }) ∧
      self'.pastTaskDurations = self.pastTaskDurations := by
  simp only [updateTask] at h
  split at h
  · cases h
  · rename_i hneg
    split at h
    · rename_i old hold
      injection h with h
      subst h
      exact ⟨old, hold, by omega, rfl, rfl⟩
    · cases h

theorem updateTask_numbered (self self' : ToDoList) (index : Int) (task timeToComplete : String)
    (h : updateTask self index task timeToComplete = UpdateResult.inRange self')
    (hn : self.tasks.map TaskRecord.taskNumber = List.range' 1 self.tasks.length) :
    self'.tasks.map TaskRecord.taskNumber = List.range' 1 self'.tasks.length := by
  obtain ⟨old, hold, _, ht, _⟩ :=
    updateTask_inRange_tasks self self' index task timeToComplete h
  rw [ht]
  simp only [List.length_set, List.map_set]
  rw [← hn]
  apply List.ext_getElem?
  intro k
  rw [List.getElem?_set]
  split
  · rename_i hk
    subst hk
    have hlt : index.toNat < self.tasks.length := (List.getElem?_eq_some.1 hold).1
    have hget : self.tasks[index.toNat] = old := by
      have := List.getElem?_eq_getElem hlt
      rw [hold] at this
      exact (Option.some.inj this).symm
    simp [List.getElem?_map, hold, hlt, hget]
  · rfl

theorem removeTask_numbered (self : ToDoList) (index : Int) :
    (removeTask self index).tasks.map TaskRecord.taskNumber =
      List.range' 1 (removeTask self index).tasks.length := by
  have h := renumber_taskNumber (splice self.tasks index 1) 0
  have hl : (removeTask self index).tasks.length = (splice self.tasks index 1).length := by
    simp [removeTask, reassignTaskNumbers, List.enum]
  rw [hl]
  exact h

theorem runCalls_numbered (calls : List Call) (start self : ToDoList)
    (hs : start.tasks.map TaskRecord.taskNumber = List.range' 1 start.tasks.length)
    (h : runCalls calls start = some self) :
    self.tasks.map TaskRecord.taskNumber = List.range' 1 self.tasks.length := by
  induction calls generalizing start with
  | nil =>
    simp only [runCalls, Option.some.injEq] at h
    subst h
    exact hs
  | cons call calls ih =>
    simp only [runCalls] at h
    cases call with
    | addTask task timeToComplete category =>
      exact ih _ (addTask_numbered start task timeToComplete category hs) h
    | removeTask index =>
      exact ih _ (removeTask_numbered start index) h
    | updateTask index task timeToComplete =>
      simp only [Call.apply] at h
      cases hu : updateTask start index task timeToComplete with
      | inRange self' =>
        rw [hu] at h
        exact ih _ (updateTask_numbered start self' index task timeToComplete hu hs) h
      | outOfRange a b c d =>
        rw [hu] at h
        cases h

theorem taskNumber_of_numbered (l : List TaskRecord)
    (h : l.map TaskRecord.taskNumber = List.range' 1 l.length) (k : Nat) (t : TaskRecord)
    (hk : l[k]? = some t) : t.taskNumber = k + 1 := by
  have hlt : k < l.length := (List.getElem?_eq_some.1 hk).1
  have h1 : (l.map TaskRecord.taskNumber)[k]? = some t.taskNumber := by
    simp [List.getElem?_map, hk]
  rw [h] at h1
  have h2 : (List.range' 1 l.length)[k]? = some (1 + k) := by
    rw [List.getElem?_range' 1 1 hlt]
    simp
  rw [h2] at h1
  simp only [Option.some.injEq] at h1
  omega

/-- C11: in every ledger reached from the empty ledger by a sequence of `addTask`,
`updateTask` (with an index in `[0, count)`) and `removeTask` calls, the task at 0-based
position `k` has `taskNumber` `k + 1`. -/
theorem taskNumber_reflects_position (calls : List Call) (self : ToDoList)
    (h : runCalls calls ToDoList.new = some self) (k : Nat) (t : TaskRecord)
    (hk : self.tasks[k]? = some t) : t.taskNumber = k + 1 :=
  taskNumber_of_numbered self.tasks (runCalls_numbered calls ToDoList.new self rfl h) k t hk

theorem taskNumber_reflects_position_witness :
    runCalls exampleCalls ToDoList.new = some exampleCallsLedger ∧
    exampleCallsLedger.tasks[2]? =
      some { taskNumber := 3, task := "call the bank", priority := Priority.Normal,
             time := 15, category := "errands" } ∧
    (3 : Nat) = 2 + 1 :=
  ⟨by decide!, by decide!,
    taskNumber_reflects_position exampleCalls exampleCallsLedger (by decide!) 2
      { taskNumber := 3, task := "call the bank", priority := Priority.Normal,
        time := 15, category := "errands" } (by decide!)⟩

/-! ## `addTask` and `updateTask` -/

/-- C12: `addTask` appends exactly one task: the collection grows from N to N+1 tasks, its first
N tasks are the old ones, and the last has `taskNumber` N+1, the given description and category,
the priority `getPriority` gives the description and the duration `convertToMinutes` gives the
time string. -/
theorem addTask_appends (self : ToDoList) (task timeToComplete category : String) :
    (addTask self task timeToComplete category).tasks.length = self.tasks.length + 1 ∧
    (addTask self task timeToComplete category).tasks.take self.tasks.length = self.tasks ∧
    (addTask self task timeToComplete category).tasks.getLast? =
      some { taskNumber := self.tasks.length + 1
             task := task
             priority := getPriority task
             time := convertToMinutes timeToComplete
             category := category } ∧
    (addTask self task timeToComplete category).pastTaskDurations = self.pastTaskDurations := by
  simp [addTask, List.getLast?_concat]

/-- C13: for an index `i` in `[0, count)`, `updateTask` sets the description of task `i` to the
given one and its duration to `convertToMinutes` of the time string, and leaves that task's
priority, category and `taskNumber`, every other task and the length of the collection as they
were. -/
theorem updateTask_in_range (self : ToDoList) (i : Nat) (task timeToComplete : String)
    (hi : i < self.tasks.length) :
    ∃ self' old new,
      updateTask self (i : Int) task timeToComplete = UpdateResult.inRange self' ∧
      self.tasks[i]? = some old ∧ self'.tasks[i]? = some new ∧
      new.task = task ∧ new.time = convertToMinutes timeToComplete ∧
      new.priority = old.priority ∧ new.category = old.category ∧
      new.taskNumber = old.taskNumber ∧
      (∀ j, j ≠ i → self'.tasks[j]? = self.tasks[j]?) ∧
      self'.tasks.length = self.tasks.length ∧
      self'.pastTaskDurations = self.pastTaskDurations := by
  have hneg : ¬ ((i : Int) < 0) := by omega
  have hget : self.tasks[i]? = some self.tasks[i] := List.getElem?_eq_getElem hi
  let old : TaskRecord := self.tasks[i]
  let new : TaskRecord := { old with task := task, time := convertToMinutes timeToComplete }
  refine ⟨⟨self.tasks.set i new, self.pastTaskDurations⟩, old, new,
    ?_, hget, ?_, rfl, rfl, rfl, rfl, rfl, ?_, ?_, rfl⟩
  · simp only [updateTask, if_neg hneg, Int.toNat_ofNat, hget]
  · simp [List.getElem?_set_self hi]
  · intro j hj
    simp [List.getElem?_set_ne (Ne.symm hj)]
  · simp

theorem updateTask_in_range_witness :
    1 < exampleLedger.tasks.length ∧
    ∃ self' old new,
      updateTask exampleLedger ((1 : Nat) : Int) "urgent: water the plants" "0:30" =
        UpdateResult.inRange self' ∧
      exampleLedger.tasks[1]? = some old ∧ self'.tasks[1]? = some new ∧
      new.task = "urgent: water the plants" ∧ new.time = convertToMinutes "0:30" ∧
      new.priority = old.priority ∧ new.category = old.category ∧
      new.taskNumber = old.taskNumber ∧
      (∀ j, j ≠ 1 → self'.tasks[j]? = exampleLedger.tasks[j]?) ∧
      self'.tasks.length = exampleLedger.tasks.length ∧
      self'.pastTaskDurations = exampleLedger.pastTaskDurations :=
  ⟨by decide, updateTask_in_range exampleLedger 1 "urgent: water the plants" "0:30" (by decide)⟩

/-! ## Indices outside the collection -/

theorem splice_of_length_le {α : Type} (l : List α) (index : Int)
    (h : (l.length : Int) ≤ index) : splice l index 1 = l := by
  have h1 : ¬ (index < 0) := by omega
  have h2 : min index (l.length : Int) = (l.length : Int) := by omega
  have h3 : min (max (1 : Int) 0) ((l.length : Int) - (l.length : Int)) = 0 := by omega
  simp only [splice, if_neg h1, h2, h3]
  simp

/-- C14, as stated, fails: on the example ledger of three tasks, `updateTask` with index 3
completes and stores the object `{task, time}` as element 3, so the array has length 4. -/
theorem updateTask_out_of_range_stores :
    exampleLedger.tasks.length = 3 ∧
    arrayEntry exampleLedger 3 = none ∧
    updateTask exampleLedger 3 "mow the lawn" "0:45" =
      UpdateResult.outOfRange exampleLedger 3 "mow the lawn" (JSNum.fin 45) ∧
    (updateTask exampleLedger 3 "mow the lawn" "0:45").entry 3 =
      some (ArrayEntry.partialObject "mow the lawn" (JSNum.fin 45)) ∧
    (updateTask exampleLedger 3 "mow the lawn" "0:45").length = 4 := by
  decide!

theorem updateTask_outOfRange_eq (self : ToDoList) (index : Int) (task timeToComplete : String)
    (h : index < 0 ∨ (self.tasks.length : Int) ≤ index) :
    updateTask self index task timeToComplete =
      UpdateResult.outOfRange self index task (convertToMinutes timeToComplete) := by
  simp only [updateTask]
  split
  · rfl
  · rename_i hneg
    have hle : self.tasks.length ≤ index.toNat := by omega
    rw [List.getElem?_eq_none hle]

/-- C14, amended: with an index outside `[0, count)`, `updateTask` raises no error (the call
completes), and every task at a position in `[0, count)` is left as it was. -/
theorem updateTask_out_of_range (self : ToDoList) (index : Int) (task timeToComplete : String)
    (h : index < 0 ∨ (self.tasks.length : Int) ≤ index) (k : Nat) (hk : k < self.tasks.length) :
    ∃ t, self.tasks[k]? = some t ∧
      (updateTask self index task timeToComplete).entry (k : Int) =
        some (ArrayEntry.taskObject t) := by
  rw [updateTask_outOfRange_eq self index task timeToComplete h]
  have hne : (k : Int) ≠ index := by omega
  have hnn : ¬ ((k : Int) < 0) := by omega
  refine ⟨self.tasks[k], List.getElem?_eq_getElem hk, ?_⟩
  simp [UpdateResult.entry, arrayEntry, hne, hnn, List.getElem?_eq_getElem hk]

theorem updateTask_out_of_range_witness :
    ((3 : Int) < 0 ∨ (exampleLedger.tasks.length : Int) ≤ 3) ∧ 2 < exampleLedger.tasks.length ∧
    ∃ t, exampleLedger.tasks[2]? = some t ∧
      (updateTask exampleLedger 3 "mow the lawn" "0:45").entry ((2 : Nat) : Int) =
        some (ArrayEntry.taskObject t) :=
  ⟨Or.inr (by decide), by decide,
    updateTask_out_of_range exampleLedger 3 "mow the lawn" "0:45" (Or.inr (by decide)) 2
      (by decide)⟩

/-- C15, as stated, fails: on the example ledger of three tasks, `removeTask(-1)` completes and
removes the last task. -/
theorem removeTask_negative_index_removes :
    exampleLedger.tasks.length = 3 ∧
    (removeTask exampleLedger (-1)).tasks.length = 2 ∧
    (removeTask exampleLedger (-1)).tasks.map TaskRecord.content =
      (exampleLedger.tasks.take 2).map TaskRecord.content := by
  decide!

/-- C15, amended: `removeTask` raises no error, and with an index that is `>= count` it removes
no task: the collection keeps its length and, `taskNumber` aside, its tasks. -/
theorem removeTask_index_ge_count (self : ToDoList) (index : Int)
    (h : (self.tasks.length : Int) ≤ index) :
    (removeTask self index).tasks.length = self.tasks.length ∧
    (removeTask self index).tasks.map TaskRecord.content =
      self.tasks.map TaskRecord.content := by
  have hs := splice_of_length_le self.tasks index h
  constructor
  · simp only [removeTask, reassignTaskNumbers_length]
    rw [hs]
  · simp only [removeTask, reassignTaskNumbers, List.enum]
    rw [renumber_content, hs]

theorem removeTask_index_ge_count_witness :
    (exampleLedger.tasks.length : Int) ≤ 3 ∧
    (removeTask exampleLedger 3).tasks.length = exampleLedger.tasks.length ∧
    (removeTask exampleLedger 3).tasks.map TaskRecord.content =
      exampleLedger.tasks.map TaskRecord.content :=
  ⟨by decide, removeTask_index_ge_count exampleLedger 3 (by decide)⟩

/-! ## The history table -/

/-- C16: `predictDuration` does not return 30 for every description without a recorded
duration, nor every recorded duration.  With the empty table, `predictDuration("constructor")`
is the member `constructor` that the table inherits from `Object.prototype`; a recorded
duration of 0 is passed over for 30.  A recorded duration that is truthy is returned, and a
description that is neither recorded nor the name of an inherited member gets 30. -/
theorem predictDuration_lookup :
    predictDuration ToDoList.new "constructor" = PropertyValue.inherited "constructor" ∧
    predictDuration napLedger "nap" = PropertyValue.number 30 ∧
    predictDuration napLedger "lunch" = PropertyValue.number 45 ∧
    (∀ (self : ToDoList) (task : String) (n : JSNum),
      self.pastTaskDurations.lookup task = some n → n.truthy = true →
        predictDuration self task = PropertyValue.number n) ∧
    (∀ (self : ToDoList) (task : String),
      self.pastTaskDurations.lookup task = none → task ∉ objectPrototypeKeys →
        predictDuration self task = PropertyValue.number 30) := by
  refine ⟨by decide, by decide!, by decide!, ?_, ?_⟩
  · intro self task n hl hn
    simp [predictDuration, getProperty, hl, PropertyValue.truthy, hn]
  · intro self task hl hk
    simp [predictDuration, getProperty, hl, hk]

/-! ## The exported texts -/

/-- C17: the CSV content is not the lines of the tasks alone: it is the text
`data:text/csv;charset=utf-8,` followed by the lines of the tasks (`taskNumber`, `task`, `time`,
`priority`, `category` joined by commas) joined by line feeds; for the empty ledger it is that
leading text. -/
theorem csvContent_leading_text (numberToString : JSNum → String) (self : ToDoList) :
    csvContent numberToString self =
      "data:text/csv;charset=utf-8," ++
        "\n".intercalate (self.tasks.map (csvLine numberToString)) ∧
    csvContent numberToString self ≠
      "\n".intercalate (self.tasks.map (csvLine numberToString)) ∧
    csvContent numberToString ToDoList.new = "data:text/csv;charset=utf-8," ∧
    csvLine numberToString
        { taskNumber := 1, task := "water the plants", priority := Priority.Normal,
          time := 25, category := "home" } =
      "1,water the plants," ++ numberToString 25 ++ ",Normal,home" := by
  refine ⟨rfl, ?_, ?_, ?_⟩
  · intro h
    have hl := congrArg String.length h
    simp only [csvContent, join, listTasks, String.length_append] at hl
    have h28 : "data:text/csv;charset=utf-8,".length = 28 := by decide
    omega
  · simp [csvContent, join, listTasks, ToDoList.new, String.intercalate]
  · simp [csvLine, priorityString, String.append_assoc]
    rfl

/-! ## JSON round trip -/

theorem skipWhitespace_cons_of_not (c : Char) (cs : List Char) (h : isJsonWhitespace c = false) :
    skipWhitespace (c :: cs) = c :: cs := by
  simp [skipWhitespace, List.dropWhile, h]

theorem hex4_hexDigit : ∀ n, n < 32 →
    hex4 '0' '0' (hexDigit (n / 16)) (hexDigit (n % 16)) = some n := by
  decide

theorem parseEscape_unicode (h1 h2 : Char) (n : Nat) (hn : n < 32)
    (hh : hex4 '0' '0' h1 h2 = some n) (rest : List Char) :
    parseEscape ('u' :: '0' :: '0' :: h1 :: h2 :: rest) = some (Char.ofNat n, rest) := by
  have h1' : ¬ (0xD800 ≤ n ∧ n < 0xDC00) := by omega
  have h2' : ¬ (0xDC00 ≤ n ∧ n < 0xE000) := by omega
  simp [parseEscape, hh, parseUnicodeEscape, h1', h2']

theorem parseStringBody_cons (fuel : Nat) (c : Char) (rest : List Char) :
    parseStringBody (fuel + 1) (c :: rest) =
      if c = quoteMark then some ([], rest)
      else if c = backslash then
        match parseEscape rest with
        | some (ch, rest1) => (parseStringBody fuel rest1).map (fun p => (ch :: p.1, p.2))
        | none => none
      else if c.toNat < 32 then none
      else (parseStringBody fuel rest).map (fun p => (c :: p.1, p.2)) := by
  rw [parseStringBody]

theorem parseStringBody_quoteChar (fuel : Nat) (c : Char) (rest : List Char) :
    parseStringBody (fuel + 1) (quoteChar c ++ rest) =
      (parseStringBody fuel rest).map (fun p => (c :: p.1, p.2)) := by
  unfold quoteChar
  split
  · rename_i h
    subst h
    simp [parseStringBody_cons, parseEscape, simpleEscape, quoteMark, backslash]
  split
  · rename_i h
    subst h
    simp [parseStringBody_cons, parseEscape, simpleEscape, quoteMark, backslash]
  split
  · rename_i h
    subst h
    simp [parseStringBody_cons, parseEscape, simpleEscape, quoteMark, backslash]
  split
  · rename_i h
    subst h
    simp [parseStringBody_cons, parseEscape, simpleEscape, quoteMark, backslash]
  split
  · rename_i h
    subst h
    simp [parseStringBody_cons, parseEscape, simpleEscape, quoteMark, backslash]
  split
  · rename_i h
    subst h
    simp [parseStringBody_cons, parseEscape, simpleEscape, quoteMark, backslash]
  split
  · rename_i h
    subst h
    simp [parseStringBody_cons, parseEscape, simpleEscape, quoteMark, backslash]
  split
  · rename_i hq hb _ _ _ _ _ hlt
    have hesc := parseEscape_unicode _ _ c.toNat hlt (hex4_hexDigit c.toNat hlt) rest
    have hbq : backslash ≠ quoteMark := by decide
    simp only [List.cons_append, List.nil_append, parseStringBody_cons, if_neg hbq, if_true,
      hesc, Char.ofNat_toNat]
  · rename_i hq hb _ _ _ _ _ hlt
    simp only [List.cons_append, List.nil_append, parseStringBody_cons, if_neg hq, if_neg hb,
      if_neg hlt]

theorem parseStringBody_quoted (s : List Char) (fuel : Nat) (rest : List Char)
    (hf : s.length < fuel) :
    parseStringBody fuel (s.flatMap quoteChar ++ quoteMark :: rest) = some (s, rest) := by
  induction s generalizing fuel with
  | nil =>
    obtain ⟨f, rfl⟩ : ∃ f, fuel = f + 1 := ⟨fuel - 1, by simp at hf; omega⟩
    simp [parseStringBody_cons]
  | cons c s ih =>
    obtain ⟨f, rfl⟩ : ∃ f, fuel = f + 1 := ⟨fuel - 1, by simp at hf; omega⟩
    simp only [List.flatMap_cons, List.append_assoc]
    rw [parseStringBody_quoteChar, ih f (by simp at hf; omega)]
    rfl

theorem quoteChar_length_pos (c : Char) : 1 ≤ (quoteChar c).length := by
  unfold quoteChar
  repeat' split
  all_goals simp

theorem length_le_flatMap_quoteChar (s : List Char) :
    s.length ≤ (s.flatMap quoteChar).length := by
  induction s with
  | nil => simp
  | cons c s ih =>
    simp only [List.flatMap_cons, List.length_append, List.length_cons]
    have := quoteChar_length_pos c
    omega

theorem quoteMark_not_whitespace : isJsonWhitespace quoteMark = false := by decide

theorem parseStringBody_quoteJSONString (s : String) (rest : List Char) :
    ∃ body, quoteJSONString s ++ rest = quoteMark :: body ∧
      parseStringBody body.length body = some (s.toList, rest) := by
  refine ⟨s.toList.flatMap quoteChar ++ quoteMark :: rest, by simp [quoteJSONString], ?_⟩
  apply parseStringBody_quoted
  have := length_le_flatMap_quoteChar s.toList
  simp only [List.length_append, List.length_cons]
  omega

theorem parseValue_string (fuel : Nat) (s : String) (rest : List Char) :
    parseValue (fuel + 1) (quoteJSONString s ++ rest) = some (Json.string s, rest) := by
  obtain ⟨body, hb, hp⟩ := parseStringBody_quoteJSONString s rest
  rw [hb, parseValue, skipWhitespace_cons_of_not _ _ quoteMark_not_whitespace]
  simp [hp]

theorem takeWhile_append_stop (p : Char → Bool) (l : List Char) (c : Char) (rest : List Char)
    (hl : l.all p = true) (hc : p c = false) :
    (l ++ c :: rest).takeWhile p = l ∧ (l ++ c :: rest).dropWhile p = c :: rest := by
  induction l with
  | nil => simp [List.takeWhile, List.dropWhile, hc]
  | cons a l ih =>
    simp only [List.all_cons, Bool.and_eq_true] at hl
    obtain ⟨h1, h2⟩ := ih hl.2
    simp [List.takeWhile, List.dropWhile, hl.1, h1, h2]

theorem numberChar_not_special (c : Char) (h : isNumberChar c = true) :
    isJsonWhitespace c = false ∧ c ≠ quoteMark ∧ c ≠ leftBrace ∧ c ≠ '[' := by
  refine ⟨?_, ?_, ?_, ?_⟩
  · cases hw : isJsonWhitespace c
    · rfl
    · exfalso
      simp only [isJsonWhitespace, Bool.or_eq_true, decide_eq_true_eq] at hw
      rcases hw with ((hw | hw) | hw) | hw <;> subst hw <;> revert h <;> decide
  · intro e; subst e; revert h; decide
  · intro e; subst e; revert h; decide
  · intro e; subst e; revert h; decide

theorem parseValue_number (f : JSNum → String) (x : JSNum) (h : printsJsonNumber f x = true)
    (fuel : Nat) (c : Char) (rest : List Char) (hc : isNumberChar c = false) :
    parseValue (fuel + 1) ((f x).toList ++ c :: rest) = some (Json.number x, c :: rest) := by
  simp only [printsJsonNumber, Bool.and_eq_true, decide_eq_true_eq] at h
  obtain ⟨hall, hparse⟩ := h
  obtain ⟨htake, hdrop⟩ := takeWhile_append_stop isNumberChar _ c rest hall hc
  cases hT : (f x).toList with
  | nil =>
    rw [hT] at hparse
    simp [parseNumberToken, isJsonNumber] at hparse
  | cons a T =>
    rw [hT] at hall htake hdrop hparse
    have ha : isNumberChar a = true := by
      simp only [List.all_cons, Bool.and_eq_true] at hall
      exact hall.1
    obtain ⟨hw, hq, hb, hk⟩ := numberChar_not_special a ha
    rw [List.cons_append, parseValue, skipWhitespace_cons_of_not _ _ hw]
    simp only [if_neg hq, if_neg hb, if_neg hk, ha, if_true]
    rw [← List.cons_append, htake, hdrop, hparse]
    rfl

theorem parseValue_null (fuel : Nat) (rest : List Char) :
    parseValue (fuel + 1) ('n' :: 'u' :: 'l' :: 'l' :: rest) = some (Json.null, rest) := by
  rw [parseValue, skipWhitespace_cons_of_not _ _ (by decide)]
  simp [quoteMark, leftBrace, isNumberChar]

theorem parseValue_numberText (f : JSNum → String) (x : JSNum)
    (h : x.isFinite = true → printsJsonNumber f x = true)
    (fuel : Nat) (c : Char) (rest : List Char) (hc : isNumberChar c = false) :
    parseValue (fuel + 1) (numberText f x ++ c :: rest) =
      some (if x.isFinite = true then Json.number x else Json.null, c :: rest) := by
  unfold numberText
  split
  · rename_i hx
    exact parseValue_number f x (h hx) fuel c rest hc
  · exact parseValue_null fuel (c :: rest)

theorem parseValue_skip (fuel : Nat) (w : Char) (cs : List Char)
    (hw : isJsonWhitespace w = true) : parseValue fuel (w :: cs) = parseValue fuel cs := by
  cases fuel with
  | zero => simp [parseValue]
  | succ f =>
    rw [parseValue, parseValue]
    simp [skipWhitespace, List.dropWhile, hw]

theorem parseMembers_skip (fuel : Nat) (w : Char) (cs : List Char)
    (hw : isJsonWhitespace w = true) : parseMembers fuel (w :: cs) = parseMembers fuel cs := by
  cases fuel with
  | zero => simp [parseMembers]
  | succ f =>
    rw [parseMembers, parseMembers]
    simp [skipWhitespace, List.dropWhile, hw]

theorem parseMembers_member (fuel : Nat) (key : String) (valueText : List Char) (v : Json)
    (after : List Char) (c : Char) (rest : List Char)
    (hv : parseValue (fuel + 1) (valueText ++ after) = some (v, after))
    (hs : skipWhitespace after = c :: rest) :
    parseMembers (fuel + 2) (memberText key valueText ++ after) =
      if c = ',' then (parseMembers (fuel + 1) rest).map (fun p => ((key, v) :: p.1, p.2))
      else if c = rightBrace then some ([(key, v)], rest)
      else none := by
  obtain ⟨body, hb, hp⟩ :=
    parseStringBody_quoteJSONString key (':' :: ' ' :: (valueText ++ after))
  have htext : memberText key valueText ++ after = quoteMark :: body := by
    rw [← hb]
    simp [memberText]
  rw [htext, parseMembers, skipWhitespace_cons_of_not _ _ quoteMark_not_whitespace]
  simp only [if_true, hp]
  rw [skipWhitespace_cons_of_not _ _ (by decide)]
  simp only [if_true]
  rw [parseValue_skip _ ' ' _ (by decide), hv]
  simp only [hs]
  cases key
  rfl

theorem memberText_head (key : String) (valueText : List Char) :
    ∃ body, memberText key valueText = quoteMark :: body := by
  exact ⟨_, rfl⟩

theorem parseValue_taskObject (f : JSNum → String) (t : TaskRecord)
    (h1 : printsJsonNumber f (JSNum.fin t.taskNumber) = true)
    (h2 : t.time.isFinite = true → printsJsonNumber f t.time = true)
    (fuel : Nat) (rest : List Char) :
    parseValue (fuel + 7) (taskObjectText f t ++ rest) = some (taskJson t, rest) := by
  have hcomma : isNumberChar ',' = false := by decide
  have hsk : ∀ r : List Char, skipWhitespace (',' :: r) = ',' :: r :=
    fun r => skipWhitespace_cons_of_not _ _ (by decide)
  have hskEnd : ∀ r : List Char,
      skipWhitespace ('\n' :: ' ' :: ' ' :: rightBrace :: r) = rightBrace :: r := by
    intro r
    simp [skipWhitespace, List.dropWhile, isJsonWhitespace, rightBrace]
  have hws : ∀ (n : Nat) (r : List Char),
      parseMembers n ('\n' :: ' ' :: ' ' :: ' ' :: ' ' :: r) = parseMembers n r := by
    intro n r
    rw [parseMembers_skip _ _ _ (by decide), parseMembers_skip _ _ _ (by decide),
      parseMembers_skip _ _ _ (by decide), parseMembers_skip _ _ _ (by decide),
      parseMembers_skip _ _ _ (by decide)]
  have hfin : (JSNum.fin t.taskNumber).isFinite = true := rfl
  obtain ⟨body, hbody⟩ := memberText_head "taskNumber"
    (numberText f (JSNum.fin t.taskNumber))
  unfold taskObjectText
  simp only [List.intercalate, List.intersperse, List.flatten, List.append_assoc,
    List.cons_append, List.nil_append, List.append_nil]
  rw [parseValue, skipWhitespace_cons_of_not _ _ (by decide)]
  have hq : leftBrace ≠ quoteMark := by decide
  simp only [if_neg hq, if_true]
  have hskStart : ∀ r : List Char,
      skipWhitespace ('\n' :: ' ' :: ' ' :: ' ' :: ' ' :: (quoteMark :: r)) = quoteMark :: r := by
    intro r
    simp [skipWhitespace, List.dropWhile, isJsonWhitespace, quoteMark]
  rw [hbody]
  simp only [List.cons_append]
  rw [hskStart]
  have hqr : quoteMark ≠ rightBrace := by decide
  simp only [if_neg hqr]
  rw [← List.cons_append, ← hbody]
  rw [parseMembers_member (fuel + 4) "taskNumber" _ _ _ ',' _
    (parseValue_numberText f _ (fun _ => h1) _ ',' _ hcomma) (hsk _)]
  simp only [if_true, hws]
  rw [parseMembers_member (fuel + 3) "task" _ _ _ ',' _ (parseValue_string _ _ _) (hsk _)]
  simp only [if_true, hws]
  rw [parseMembers_member (fuel + 2) "priority" _ _ _ ',' _ (parseValue_string _ _ _) (hsk _)]
  simp only [if_true, hws]
  rw [parseMembers_member (fuel + 1) "time" _ _ _ ',' _
    (parseValue_numberText f _ h2 _ ',' _ hcomma) (hsk _)]
  simp only [if_true, hws]
  rw [parseMembers_member fuel "category" _ _ _ rightBrace _ (parseValue_string _ _ _)
    (hskEnd _)]
  have hrc : rightBrace ≠ ',' := by decide
  simp [if_neg hrc, taskJson, hfin]

theorem parseElements_skip (fuel : Nat) (w : Char) (cs : List Char)
    (hw : isJsonWhitespace w = true) : parseElements fuel (w :: cs) = parseElements fuel cs := by
  cases fuel with
  | zero => simp [parseElements]
  | succ f => rw [parseElements, parseElements, parseValue_skip _ _ _ hw]

theorem intercalate_cons_cons (sep a b : List Char) (l : List (List Char)) :
    List.intercalate sep (a :: b :: l) = a ++ (sep ++ List.intercalate sep (b :: l)) := by
  simp [List.intercalate, List.intersperse, List.flatten]

theorem intercalate_singleton (sep a : List Char) : List.intercalate sep [a] = a := by
  simp [List.intercalate, List.intersperse, List.flatten]

theorem parseElements_tasks (f : JSNum → String) (ts : List TaskRecord) (hne : ts ≠ [])
    (h : ∀ t, t ∈ ts → printsJsonNumber f (JSNum.fin t.taskNumber) = true ∧
      (t.time.isFinite = true → printsJsonNumber f t.time = true))
    (fuel : Nat) (rest : List Char) :
    parseElements (fuel + ts.length + 7)
        (List.intercalate [',', '\n', ' ', ' '] (ts.map (taskObjectText f)) ++
          '\n' :: ']' :: rest) =
      some (ts.map taskJson, rest) := by
  induction ts with
  | nil => exact absurd rfl hne
  | cons t ts ih =>
    have ht := h t (List.mem_cons_self _ _)
    cases ts with
    | nil =>
      simp only [List.map_cons, List.map_nil, intercalate_singleton, List.length_singleton]
      rw [show fuel + 1 + 7 = (fuel + 7) + 1 from by omega, parseElements,
        parseValue_taskObject f t ht.1 ht.2]
      simp [skipWhitespace, List.dropWhile, isJsonWhitespace]
    | cons u ts =>
      have hrec := ih (by simp) (fun v hv => h v (List.mem_cons_of_mem _ hv))
      simp only [List.map_cons, intercalate_cons_cons, List.append_assoc, List.length_cons]
      simp only [List.map_cons, List.length_cons] at hrec
      rw [show fuel + (ts.length + 1 + 1) + 7 = ((fuel + ts.length + 1) + 7) + 1 from by omega,
        parseElements, parseValue_taskObject f t ht.1 ht.2]
      simp only [List.cons_append, List.nil_append]
      rw [skipWhitespace_cons_of_not _ _ (by decide)]
      simp only [if_true]
      rw [parseElements_skip _ _ _ (by decide), parseElements_skip _ _ _ (by decide),
        parseElements_skip _ _ _ (by decide)]
      rw [show fuel + ts.length + 1 + 7 = fuel + (ts.length + 1) + 7 from by omega, hrec]
      rfl

theorem taskObjectText_head (f : JSNum → String) (t : TaskRecord) :
    ∃ body, taskObjectText f t = leftBrace :: body :=
  ⟨_, rfl⟩

theorem length_le_intercalate (f : JSNum → String) (sep : List Char) (ts : List TaskRecord) :
    ts.length ≤ (List.intercalate sep (ts.map (taskObjectText f))).length := by
  induction ts with
  | nil => simp
  | cons t ts ih =>
    obtain ⟨body, hb⟩ := taskObjectText_head f t
    cases ts with
    | nil => simp [intercalate_singleton, hb]
    | cons u ts =>
      simp only [List.map_cons, intercalate_cons_cons, List.length_append, List.length_cons, hb]
      simp only [List.map_cons, List.length_cons] at ih
      omega

theorem parseValue_stringifyTasks (f : JSNum → String) (ts : List TaskRecord)
    (h : ∀ t, t ∈ ts → printsJsonNumber f (JSNum.fin t.taskNumber) = true ∧
      (t.time.isFinite = true → printsJsonNumber f t.time = true))
    (fuel : Nat) :
    parseValue (fuel + ts.length + 8) (stringifyTasks f ts) =
      some (Json.array (ts.map taskJson), []) := by
  unfold stringifyTasks
  split
  · rename_i hnil
    subst hnil
    rw [show fuel + ([] : List TaskRecord).length + 8 = (fuel + 7) + 1 from by simp, parseValue]
    simp [skipWhitespace, List.dropWhile, isJsonWhitespace, quoteMark, leftBrace]
  · rename_i hne
    obtain ⟨t, ts', rfl⟩ := List.exists_cons_of_ne_nil hne
    obtain ⟨body, hb⟩ := taskObjectText_head f t
    have hE : ∃ tail, List.intercalate [',', '\n', ' ', ' ']
        ((t :: ts').map (taskObjectText f)) = leftBrace :: tail := by
      cases ts' with
      | nil => exact ⟨body, by simp [intercalate_singleton, hb]⟩
      | cons u ts => exact ⟨_, by simp only [List.map_cons, intercalate_cons_cons, hb]; rfl⟩
    obtain ⟨tail, htail⟩ := hE
    have hp := parseElements_tasks f (t :: ts') hne h fuel []
    rw [htail] at hp
    rw [show fuel + (t :: ts').length + 8 = (fuel + (t :: ts').length + 7) + 1 from by omega,
      parseValue, skipWhitespace_cons_of_not _ _ (by decide), htail]
    have h1 : ('[' : Char) ≠ quoteMark := by decide
    have h2 : ('[' : Char) ≠ leftBrace := by decide
    have h3 : leftBrace ≠ ']' := by decide
    simp only [if_neg h1, if_neg h2, if_true, List.cons_append]
    have hsk : ∀ r : List Char,
        skipWhitespace ('\n' :: ' ' :: ' ' :: (leftBrace :: r)) = leftBrace :: r := by
      intro r
      simp [skipWhitespace, List.dropWhile, isJsonWhitespace, leftBrace]
    rw [hsk]
    simp only [if_neg h3]
    rw [List.cons_append] at hp
    rw [hp]
    rfl

theorem length_le_stringifyTasks (f : JSNum → String) (ts : List TaskRecord) :
    ts.length ≤ (stringifyTasks f ts).length := by
  unfold stringifyTasks
  split
  · rename_i hnil
    subst hnil
    simp
  · have := length_le_intercalate f [',', '\n', ' ', ' '] ts
    simp only [List.length_cons, List.length_append]
    omega

theorem parseJsonContent_eq (f : JSNum → String) (self : ToDoList)
    (h : ∀ t, t ∈ self.tasks → printsJsonNumber f (JSNum.fin t.taskNumber) = true ∧
      (t.time.isFinite = true → printsJsonNumber f t.time = true)) :
    parseJsonContent f self = some (Json.array (self.tasks.map taskJson)) := by
  have hlen := length_le_stringifyTasks f self.tasks
  simp only [parseJsonContent, jsonParse, jsonContent, listTasks, String.length]
  obtain ⟨k, hk⟩ : ∃ k, 2 * (stringifyTasks f self.tasks).length + 8 =
      k + self.tasks.length + 8 := ⟨2 * (stringifyTasks f self.tasks).length - self.tasks.length,
        by omega⟩
  rw [hk]
  show (match parseValue (k + self.tasks.length + 8) (stringifyTasks f self.tasks) with
    | some (v, rest) => if skipWhitespace rest = [] then some v else none
    | none => none) = _
  rw [parseValue_stringifyTasks f self.tasks h k]
  simp [skipWhitespace]

theorem sameValues_taskJson (t : TaskRecord) (h : t.time.isFinite = true) :
    sameValues t (taskJson t) = true := by
  simp [sameValues, taskJson, Json.numberField, Json.stringField, Json.field, List.lookup, h]

/-- C18, as stated, fails: a task added with the time string "Infinity" or "-Infinity" has an
infinite duration, `JSON.stringify` writes `null` for it, and the parsed task has no Number as
its `time`, so it does not have the task's duration. -/
theorem json_round_trip_infinite_duration :
    infiniteLedger.tasks.map TaskRecord.time = [JSNum.negInf, JSNum.posInf] ∧
    (parseJsonContent wholeNumberToString infiniteLedger).map
      (fun j => j.items.map (Json.numberField "time")) = some [none, none] ∧
    (parseJsonContent wholeNumberToString infiniteLedger).map
      (fun j => List.zipWith sameValues infiniteLedger.tasks j.items) = some [false, false] := by
  decide!

/-- C18, amended: for every ledger whose durations are all finite, the JSON content parsed back
is a collection of the same length whose tasks have, in the same order, the `taskNumber`,
`task`, `priority`, `time` and `category` of the tasks of the ledger; the conversion of a Number
to a string is any that prints each Number of the ledger as a JSON number that denotes it. -/
theorem json_round_trip (numberToString : JSNum → String) (self : ToDoList)
    (h : self.tasks.all (fun t => t.time.isFinite &&
      printsJsonNumber numberToString (JSNum.fin t.taskNumber) &&
      printsJsonNumber numberToString t.time) = true) :
    ∃ items, parseJsonContent numberToString self = some (Json.array items) ∧
      items.length = self.tasks.length ∧
      List.Forall₂ (fun t j => sameValues t j = true) self.tasks items := by
  have hall : ∀ t, t ∈ self.tasks → t.time.isFinite = true ∧
      printsJsonNumber numberToString (JSNum.fin t.taskNumber) = true ∧
      printsJsonNumber numberToString t.time = true := by
    intro t ht
    have := List.all_eq_true.1 h t ht
    simp only [Bool.and_eq_true] at this
    exact ⟨this.1.1, this.1.2, this.2⟩
  refine ⟨self.tasks.map taskJson, ?_, by simp, ?_⟩
  · exact parseJsonContent_eq numberToString self
      (fun t ht => ⟨(hall t ht).2.1, fun _ => (hall t ht).2.2⟩)
  · rw [List.forall₂_map_right_iff]
    exact List.forall₂_same.2 (fun t ht => sameValues_taskJson t (hall t ht).1)

theorem json_round_trip_witness :
    exampleLedger.tasks.all (fun t => t.time.isFinite &&
      printsJsonNumber wholeNumberToString (JSNum.fin t.taskNumber) &&
      printsJsonNumber wholeNumberToString t.time) = true ∧
    ∃ items, parseJsonContent wholeNumberToString exampleLedger = some (Json.array items) ∧
      items.length = exampleLedger.tasks.length ∧
      List.Forall₂ (fun t j => sameValues t j = true) exampleLedger.tasks items :=
  ⟨by decide!, json_round_trip wholeNumberToString exampleLedger (by decide!)⟩


/-! ## The two selections compared -/

theorem suggestLoop_acc (l : List TaskRecord) (b s : JSNum) (acc : List TaskRecord) :
    suggestLoop l b s acc = acc ++ suggestLoop l b s [] := by
  induction l generalizing s acc with
  | nil => simp [suggestLoop]
  | cons t l ih =>
    simp only [suggestLoop]
    split
    · rw [ih, ih _ ([] ++ [t])]
      simp
    · exact ih _ _

theorem suggestLoop_cons (t : TaskRecord) (l : List TaskRecord) (b s : JSNum) :
    suggestLoop (t :: l) b s [] =
      if JSNum.le (JSNum.add s t.time) b = true then
        t :: suggestLoop l b (JSNum.add s t.time) []
      else suggestLoop l b s [] := by
  simp only [suggestLoop, JSNum.add_def]
  split
  · rw [suggestLoop_acc]
    simp
  · rfl

theorem allocateLoop_isPrefix_suggestLoop_whole (l : List TaskRecord) (R S B : Nat)
    (hRS : R + S = B) (hB : B < 2 ^ 52) (hl : ∀ t, t ∈ l → t.time.isWholeMinutes = true) :
    allocateLoop l (JSNum.fin R) [] <+: suggestLoop l (JSNum.fin B) (JSNum.fin S) [] := by
  induction l generalizing R S with
  | nil => simp [allocateLoop, suggestLoop]
  | cons t l ih =>
    obtain ⟨d, hd, htd⟩ := isWholeMinutes_iff t.time (hl t (List.mem_cons_self _ _))
    have hl' : ∀ u, u ∈ l → u.time.isWholeMinutes = true :=
      fun u hu => hl u (List.mem_cons_of_mem _ hu)
    rw [allocateLoop_cons, htd]
    by_cases h : JSNum.le (JSNum.fin d) (JSNum.fin R) = true
    · have hdR : d ≤ R := (jsLe_natCast d R).1 h
      rw [if_pos h, suggestLoop_cons, htd, jsAdd_natCast S d (by omega)]
      rw [if_pos ((jsLe_natCast (S + d) B).2 (by omega))]
      simp only [JSNum.sub_def]
      rw [jsSub_natCast R d hdR (by omega)]
      exact ( List.prefix_cons_inj t).2 (ih (R - d) (S + d) (by omega) hl')
    · rw [if_neg h]
      exact List.nil_prefix

theorem suggestLoop_sublist (l : List TaskRecord) (b s : JSNum) :
    List.Sublist (suggestLoop l b s []) l := by
  induction l generalizing s with
  | nil => simp [suggestLoop]
  | cons t l ih =>
    rw [suggestLoop_cons]
    split
    · exact (ih _).cons₂ t
    · exact (ih _).cons t

theorem allocate_isPrefix_suggest (self : ToDoList) (budget : JSNum)
    (hb : budget.isWholeMinutes = true)
    (hl : self.tasks.all (fun t => t.time.isWholeMinutes) = true) :
    allocateTimeForTasks self budget <+: suggestTaskOrder self budget := by
  obtain ⟨B, hB, rfl⟩ := isWholeMinutes_iff budget hb
  have hs : ∀ t, t ∈ (sortTasks self).1 → t.time.isWholeMinutes = true := by
    intro t ht
    exact List.all_eq_true.1 hl t ((sort_perm comparePriority self.tasks).mem_iff.1 ht)
  have h := allocateLoop_isPrefix_suggestLoop_whole (sortTasks self).1 B 0 B (by omega) hB hs
  simp only [Nat.cast_zero] at h
  simpa [allocateTimeForTasks, suggestTaskOrder] using h

/-- C19, as stated, fails.  On the ledger with the durations 0.8, 1.6 and 0.6 and a budget of
3, `allocateTimeForTasks` selects the three tasks (3 - 0.8 - 1.6 leaves 0.6000000000000001)
and `suggestTaskOrder` returns the first two (0.8 + 1.6 + 0.6 is 3.0000000000000004).  On the
ledger with the durations `-Infinity` and `Infinity` and a budget of 20,
`allocateTimeForTasks` selects both tasks and `suggestTaskOrder` returns the first alone. -/
theorem allocate_not_isPrefix_suggest :
    (allocateTimeForTasks fractionLedger 3).map TaskRecord.task =
      ["stretch", "boil the kettle", "feed the cat"] ∧
    (suggestTaskOrder fractionLedger 3).map TaskRecord.task = ["stretch", "boil the kettle"] ∧
    ¬ (allocateTimeForTasks fractionLedger 3 <+: suggestTaskOrder fractionLedger 3) ∧
    (suggestTaskOrder fractionLedger 3).length <
      (allocateTimeForTasks fractionLedger 3).length ∧
    (allocateTimeForTasks infiniteLedger 20).map TaskRecord.time =
      [JSNum.negInf, JSNum.posInf] ∧
    (suggestTaskOrder infiniteLedger 20).map TaskRecord.time = [JSNum.negInf] := by
  refine ⟨by decide!, by decide!, ?_, by decide!, by decide!, by decide!⟩
  intro h
  have hlen := h.length_le
  have : ¬ ((allocateTimeForTasks fractionLedger 3).length ≤
      (suggestTaskOrder fractionLedger 3).length) := by decide!
  exact this hlen

/-- C19, amended: for every ledger whose durations are whole numbers of minutes from 0 to
below 2^52 and every budget that is such a whole number, the list selected by
`allocateTimeForTasks` is a prefix of the list returned by `suggestTaskOrder`; the two are
equal whenever `allocateTimeForTasks` rejects no task of `sortTasks()`, and `suggestTaskOrder`
never returns fewer tasks. -/
theorem allocate_suggest_compared (self : ToDoList) (budget : JSNum)
    (hb : budget.isWholeMinutes = true)
    (hl : self.tasks.all (fun t => t.time.isWholeMinutes) = true) :
    allocateTimeForTasks self budget <+: suggestTaskOrder self budget ∧
    (allocateTimeForTasks self budget = (sortTasks self).1 →
      suggestTaskOrder self budget = allocateTimeForTasks self budget) ∧
    (allocateTimeForTasks self budget).length ≤ (suggestTaskOrder self budget).length := by
  have hp := allocate_isPrefix_suggest self budget hb hl
  refine ⟨hp, ?_, hp.length_le⟩
  intro hall
  have hsub : List.Sublist (suggestTaskOrder self budget) (sortTasks self).1 :=
    suggestLoop_sublist _ _ _
  rw [← hall] at hsub
  exact (hp.sublist.antisymm hsub).symm

theorem allocate_suggest_compared_witness :
    (20 : JSNum).isWholeMinutes = true ∧
    exampleLedger.tasks.all (fun t => t.time.isWholeMinutes) = true ∧
    allocateTimeForTasks exampleLedger 20 <+: suggestTaskOrder exampleLedger 20 ∧
    (allocateTimeForTasks exampleLedger 20 = (sortTasks exampleLedger).1 →
      suggestTaskOrder exampleLedger 20 = allocateTimeForTasks exampleLedger 20) ∧
    (allocateTimeForTasks exampleLedger 20).length ≤
      (suggestTaskOrder exampleLedger 20).length :=
  ⟨by decide!, by decide!,
    allocate_suggest_compared exampleLedger 20 (by decide!) (by decide!)⟩

/-! ## The budget of `suggestTaskOrder` -/

theorem suggestLoop_total (l : List TaskRecord) (b s : JSNum) (acc : List TaskRecord)
    (hs : s = totalDuration acc) (hb : JSNum.le s b = true) :
    JSNum.le (totalDuration (suggestLoop l b s acc)) b = true := by
  induction l generalizing s acc with
  | nil =>
    simp only [suggestLoop]
    rw [← hs]
    exact hb
  | cons t l ih =>
    simp only [suggestLoop]
    split
    · rename_i hfit
      refine ih _ _ ?_ hfit
      rw [totalDuration_append_singleton, hs]
      rfl
    · exact ih _ _ hs hb

/-- C20: for every ledger and every budget `>= 0`, the summed `time` of the tasks returned by
`suggestTaskOrder` is `<=` the budget, so it does not exceed it. -/
theorem suggestTaskOrder_within_budget (self : ToDoList) (budget : JSNum)
    (h : JSNum.le 0 budget = true) :
    JSNum.le (totalDuration (suggestTaskOrder self budget)) budget = true ∧
    JSNum.gt (totalDuration (suggestTaskOrder self budget)) budget = false := by
  have hle : JSNum.le (totalDuration (suggestTaskOrder self budget)) budget = true :=
    suggestLoop_total _ _ _ _ (by simp [totalDuration]) h
  exact ⟨hle, jsLe_not_gt _ _ hle⟩

theorem suggestTaskOrder_within_budget_witness :
    JSNum.le 0 (20 : JSNum) = true ∧
    JSNum.le (totalDuration (suggestTaskOrder exampleLedger 20)) 20 = true ∧
    JSNum.gt (totalDuration (suggestTaskOrder exampleLedger 20)) 20 = false :=
  ⟨by decide!, suggestTaskOrder_within_budget exampleLedger 20 (by decide!)⟩

end ToDo
